import Mathlib

/-!
# wish: the command execution engine of `enunciado/wish.c`

A shallow embedding of the shell's engine: the search-path registry, the
resolver `find_executable`, the built-in dispatcher `execute_builtin`, the
external runner `execute_external`, the single-job parser
`parse_and_execute_single` and the job splitter `parse_and_execute`.

Conventions of the embedding.

* A C string is a `Str`: the list of its bytes before the terminating NUL.
* The two globals `search_paths` / `num_paths` are one list; `num_paths` is its
  length (the C code keeps the two in step at every assignment).
* Every process is a `Proc`: its registry, its working directory, the ordered
  `trace` of the system calls it made, and its `status`.  A `Shell` is the
  process under study together with the processes it has forked so far.
* Results of system calls come from an `Env` of oracles.
* A forked child starts from the registry and working directory of its parent
  with an empty trace of its own; what it does is recorded in the `spawned`
  table of the parent, followed by the processes the child forked itself.
* `malloc` and `strdup` are taken to succeed (lists are unbounded), so the
  out-of-memory branches of the C code do not appear.
-/

namespace Wish

/-- A C string: its bytes up to (not including) the terminating NUL. -/
abbrev Str := List Char

/-- Flags given to `open(2)`. -/
inductive OFlag where
  | O_WRONLY
  | O_CREAT
  | O_TRUNC
  deriving DecidableEq, Repr

/-- One observable action of a process, in program order. -/
inductive Event where
  /-- `print_error()`: the fixed message is written to stderr (l.25-27). -/
  | print_error
  /-- `chdir(dir)` was called (l.139). -/
  | chdir (dir : Str)
  /-- `fork()` was called; `none` is a failed fork, `some pid` the child. -/
  | fork (pid : Option Nat)
  /-- `wait(NULL)` (l.227). -/
  | wait
  /-- `waitpid(pid, NULL, 0)` (l.420, l.439). -/
  | waitpid (pid : Nat)
  /-- `open(file, flags, mode)` and its result. -/
  | sys_open (file : Str) (flags : List OFlag) (mode : Nat) (fd : Option Nat)
  /-- `dup2(fd, target)`. -/
  | dup2 (fd : Nat) (target : Nat)
  /-- `close(fd)`. -/
  | close (fd : Nat)
  /-- `execv(path, args)` was called. -/
  | execv (path : Str) (args : List Str)
  deriving DecidableEq, Repr

/-- What has become of a process. -/
inductive Status where
  /-- Still executing the shell's code. -/
  | running
  /-- Left through `exit(code)`. -/
  | exited (code : Nat)
  /-- Its image was replaced by a successful `execv`. -/
  | replaced
  deriving DecidableEq, Repr

/-- One process: the globals of wish.c, the working directory, its actions. -/
structure Proc where
  pid : Nat
  search_paths : List Str
  cwd : Str
  trace : List Event
  status : Status
  deriving DecidableEq, Repr

/-- The process under study and the children it has forked, oldest first. -/
structure Shell extends Proc where
  spawned : List Proc
  deriving DecidableEq, Repr

/-- Answers of the operating system. -/
structure Env where
  /-- `access(path, X_OK) == 0`. -/
  sys_access : Str → Bool
  /-- `chdir`: from the current directory and the argument, the new directory,
  or `none` when the call fails. -/
  sys_chdir : Str → Str → Option Str
  /-- `fork`: for the calling process and the number of `fork` calls it made
  before, the child's pid, or `none` when the call fails. -/
  sys_fork : Nat → Nat → Option Nat
  /-- `open`: the descriptor, or `none` when the call fails. -/
  sys_open : Str → Option Nat
  /-- `execv`: whether the image was replaced. -/
  sys_execv : Str → List Str → Bool

def STDOUT_FILENO : Nat := 1
def STDERR_FILENO : Nat := 2

/-- The literal `"exit"`. -/
def kw_exit : Str := ['e', 'x', 'i', 't']
/-- The literal `"cd"`. -/
def kw_cd : Str := ['c', 'd']
/-- The literal `"path"`. -/
def kw_path : Str := ['p', 'a', 't', 'h']
/-- The literal `">"`. -/
def gt : Str := ['>']
/-- The delimiter set `" \t"` of the tokenizer. -/
def blanks : Str := [' ', '\t']

/-- The variable `num_paths`. -/
def num_paths (s : Shell) : Nat := s.search_paths.length

/-- Append events to the trace of the process. -/
def emit (evs : List Event) (s : Shell) : Shell :=
  { s with trace := s.trace ++ evs }

/-- `print_error` (l.25-27). -/
def print_error (s : Shell) : Shell := emit [Event.print_error] s

/-- `exit(code)`. -/
def sys_exit (code : Nat) (s : Shell) : Shell :=
  { s with status := Status.exited code }

/-- `free_paths` (l.54-61): `search_paths = NULL; num_paths = 0`. -/
def free_paths (s : Shell) : Shell :=
  { s with search_paths := [] }

/-- How many times the process has reported the uniform error. -/
def error_count (s : Shell) : Nat :=
  s.trace.countP (fun e => e = Event.print_error)

/-- How many times the process has called `fork`. -/
def fork_count (s : Shell) : Nat :=
  s.trace.countP (fun e => match e with
    | Event.fork _ => true
    | _ => false)

/-- How many times the process has called `chdir`. -/
def chdir_count (s : Shell) : Nat :=
  s.trace.countP (fun e => match e with
    | Event.chdir _ => true
    | _ => false)

/-- `snprintf(path, 512, "%s/%s", dir, cmd)`: at most 511 bytes are kept. -/
def snprintf_path (dir cmd : Str) : Str := (dir ++ '/' :: cmd).take 511

/-- The loop of `find_executable` (l.87-95) from index `i` on, given as the
directories still to probe. -/
def find_loop (env : Env) (cmd : Str) : List Str → Option Str
  | [] => none
  | dir :: dirs =>
    if env.sys_access (snprintf_path dir cmd) then some (snprintf_path dir cmd)
    else find_loop env cmd dirs

/-- `find_executable` (l.74-100). -/
def find_executable (env : Env) (s : Shell) (cmd : Str) : Option Str :=
  if num_paths s = 0 then none
  else find_loop env cmd s.search_paths

/-- `is_builtin` (l.110-116); `none` is the NULL pointer. -/
def is_builtin : Option Str → Bool
  | none => false
  | some cmd =>
    if cmd = kw_exit then true
    else if cmd = kw_cd then true
    else if cmd = kw_path then true
    else false

/-- The copy loop of `path` (l.162-168): `search_paths[i] = strdup(args[i + 1])`
for `i = 0 .. num_paths - 1`. -/
def copy_paths (args : List Str) (n : Nat) : List Str :=
  (List.range n).map (fun i => args.getD (i + 1) [])

/-- `execute_builtin` (l.122-171); `arg_count` is `args.length`.
The caller guarantees `arg_count >= 1`. -/
def execute_builtin (env : Env) (args : List Str) (s : Shell) : Shell :=
  if args.head? = some kw_exit then
    if args.length > 1 then print_error s
    else sys_exit 0 (free_paths s)
  else if args.head? = some kw_cd then
    if args.length ≠ 2 then print_error s
    else
      match env.sys_chdir s.cwd (args.getD 1 []) with
      | some d => { emit [Event.chdir (args.getD 1 [])] s with cwd := d }
      | none => print_error (emit [Event.chdir (args.getD 1 [])] s)
  else if args.head? = some kw_path then
    if args.length = 1 then { free_paths s with search_paths := [] }
    else { free_paths s with search_paths := copy_paths args (args.length - 1) }
  else s

/-- The child's side of `execute_external` (l.201-223), started as `c`. -/
def external_child (env : Env) (executable : Str) (args : List Str)
    (redirect_file : Option Str) (c : Proc) : Proc :=
  let run (c : Proc) : Proc :=
    if env.sys_execv executable args then
      { c with trace := c.trace ++ [Event.execv executable args], status := Status.replaced }
    else
      { c with trace := c.trace ++ [Event.execv executable args, Event.print_error],
               status := Status.exited 1 }
  match redirect_file with
  | none => run c
  | some file =>
    match env.sys_open file with
    | none =>
      { c with
        trace := c.trace ++
          [Event.sys_open file [OFlag.O_WRONLY, OFlag.O_CREAT, OFlag.O_TRUNC] 0o644 none,
           Event.print_error],
        status := Status.exited 1 }
    | some fd =>
      run { c with
        trace := c.trace ++
          [Event.sys_open file [OFlag.O_WRONLY, OFlag.O_CREAT, OFlag.O_TRUNC] 0o644 (some fd),
           Event.dup2 fd STDOUT_FILENO, Event.dup2 fd STDERR_FILENO, Event.close fd] }

/-- `execute_external` (l.181-229). -/
def execute_external (env : Env) (args : List Str) (redirect_file : Option Str)
    (s : Shell) : Shell :=
  match args.head? with
  | none => s
  | some cmd =>
    match find_executable env s cmd with
    | none => print_error s
    | some executable =>
      match env.sys_fork s.pid (fork_count s) with
      | none => print_error (emit [Event.fork none] s)
      | some pid =>
        let child : Proc :=
          external_child env executable args redirect_file
            { pid := pid, search_paths := s.search_paths, cwd := s.cwd,
              trace := [], status := Status.running }
        { emit [Event.fork (some pid), Event.wait] s with
          spawned := s.spawned ++ [child] }

/-- The tokens that successive `strtok(..., delim)` calls return on a string:
its maximal runs of bytes outside `delim`, in order.  `cur` is the run being
read. -/
def strtok_go (delim : Str) : Str → Str → List Str
  | [], cur => if cur = [] then [] else [cur]
  | c :: cs, cur =>
    if c ∈ delim then
      if cur = [] then strtok_go delim cs [] else cur :: strtok_go delim cs []
    else strtok_go delim cs (cur ++ [c])

/-- All tokens of `str` for the delimiter set `delim`. -/
def strtok_all (delim : Str) (str : Str) : List Str := strtok_go delim str []

/-- How the parsing part of `parse_and_execute_single` ends. -/
inductive Parsed where
  /-- `print_error(); return;` (l.270, l.286, l.320, l.332). -/
  | error
  /-- The silent `return` of l.335-336: no argument, no redirection file. -/
  | empty
  /-- Line 340 is reached with these `args` and this `redirect_file`. -/
  | command (args : List Str) (redirect_file : Option Str)
  deriving DecidableEq, Repr

/-- The checks after the loop (l.319-337). -/
def parse_finish (args : List Str) (redirect_file : Option Str)
    (redirect_count : Nat) : Parsed :=
  if redirect_count > 1 then Parsed.error
  else if args.length = 0 then
    if redirect_file ≠ none then Parsed.error else Parsed.empty
  else Parsed.command args redirect_file

/-- The tokenizing loop (l.261-313).  The first argument holds `token` and the
tokens `strtok` has still to return (`[]` when `token == NULL`). -/
def parse_loop : List Str → List Str → Option Str → Nat → Parsed
  | [], args, redirect_file, redirect_count =>
    parse_finish args redirect_file redirect_count
  | token :: rest, args, redirect_file, redirect_count =>
    if args.length < 511 then
      if token = gt then
        match rest with
        | [] => Parsed.error
        | file :: rest2 =>
          match rest2 with
          | [] => parse_loop [] args (some file) (redirect_count + 1)
          | token2 :: rest3 =>
            if token2 ≠ gt then Parsed.error
            else parse_loop (token2 :: rest3) args (some file) (redirect_count + 1)
      else parse_loop rest (args ++ [token]) redirect_file redirect_count
    else parse_finish args redirect_file redirect_count

/-- The parsing part of `parse_and_execute_single` (l.247-337). -/
def parse_single (cmd_str : Str) : Parsed :=
  parse_loop (strtok_all blanks cmd_str) [] none 0

/-- The dispatch of l.340-344. -/
def dispatch (env : Env) (args : List Str) (redirect_file : Option Str)
    (s : Shell) : Shell :=
  if is_builtin args.head? then execute_builtin env args s
  else execute_external env args redirect_file s

/-- `parse_and_execute_single` (l.239-352). -/
def parse_and_execute_single (env : Env) (cmd_str : Str) (s : Shell) : Shell :=
  match parse_single cmd_str with
  | Parsed.error => print_error s
  | Parsed.empty => s
  | Parsed.command args redirect_file => dispatch env args redirect_file s

/-- A sample system: only `/bin/ls` is executable, every call succeeds. -/
def env0 : Env where
  sys_access := fun p => p = ['/', 'b', 'i', 'n', '/', 'l', 's']
  sys_chdir := fun _ d => some d
  sys_fork := fun _ n => some (100 + n)
  sys_open := fun _ => some 3
  sys_execv := fun _ _ => true

/-- A sample system in which `chdir` fails. -/
def env1 : Env where
  sys_access := fun _ => false
  sys_chdir := fun _ _ => none
  sys_fork := fun _ _ => none
  sys_open := fun _ => none
  sys_execv := fun _ _ => false

/-- The shell as `init_shell` (l.33-48) leaves it: registry `["/bin"]`. -/
def s0 : Shell :=
  { pid := 1, search_paths := [['/', 'b', 'i', 'n']], cwd := ['/'],
    trace := [], status := Status.running, spawned := [] }

/-- The delimiter set `"&"` of the job splitter. -/
def amp : Str := ['&']

/-- The cleaning of l.360-363: one trailing newline is overwritten by NUL. -/
def strip_newline (line : Str) : Str :=
  if line.length > 0 ∧ line.getLast? = some '\n' then line.dropLast else line

/-- The scan of l.367-373: `only_spaces` stays 1 unless a byte is neither a
space nor a tab. -/
def only_spaces : Str → Bool
  | [] => true
  | c :: cs => if c ≠ ' ' ∧ c ≠ '\t' then false else only_spaces cs

/-- The count of l.386-391: `num_commands` starts at 1 and grows by one for
every `&`. -/
def count_commands (line_copy : Str) : Nat :=
  line_copy.foldl (fun n c => if c = '&' then n + 1 else n) 1

/-- The child's side of the fork of l.414 (l.425-428): a copy of the shell as it
is at the fork, with the pid the parent received, runs
`parse_and_execute_single(cmd)` and then `exit(0)`. -/
def job_child (env : Env) (cmd : Str) (pid : Nat) (s : Shell) : Shell :=
  let c := parse_and_execute_single env cmd
    { pid := pid, search_paths := s.search_paths, cwd := s.cwd, trace := [],
      status := Status.running, spawned := [] }
  if c.status = Status.running then sys_exit 0 c else c

/-- The waiting loops of l.419-421 and l.438-440: `waitpid(pids[i], NULL, 0)`
for `i = 0 .. cmd_index - 1`. -/
def wait_all (pids : List Nat) (s : Shell) : Shell :=
  emit (pids.map Event.waitpid) s

/-- The launching loop of l.413-435 followed by the waiting loop.  The first
list holds `cmd` and the jobs `strtok(NULL, "&")` has still to return; `pids`
is the filled part of the array, so `cmd_index` is `pids.length`. -/
def fork_loop (env : Env) (num_commands : Nat) : List Str → List Nat → Shell → Shell
  | [], pids, s => wait_all pids s
  | cmd :: cmds, pids, s =>
    if pids.length < num_commands then
      match env.sys_fork s.pid (fork_count s) with
      | none => wait_all pids (print_error (emit [Event.fork none] s))
      | some pid =>
        fork_loop env num_commands cmds (pids ++ [pid])
          { emit [Event.fork (some pid)] s with
            spawned := s.spawned ++
              (job_child env cmd pid s).toProc :: (job_child env cmd pid s).spawned }
    else wait_all pids s

/-- `parse_and_execute` (l.358-445). -/
def parse_and_execute (env : Env) (line : Str) (s : Shell) : Shell :=
  if (strip_newline line).length = 0 ∨ only_spaces (strip_newline line) = true then s
  else if count_commands (strip_newline line) = 1 then
    parse_and_execute_single env (strip_newline line) s
  else
    fork_loop env (count_commands (strip_newline line))
      (strtok_all amp (strip_newline line)) [] s

/-! ### Vocabulary of the statements -/

/-- The jobs that get a child, each with the pid its fork returned: the jobs
are taken in order, the `k`-th call of `fork` by process `pid` is asked for
each, and the first failed call ends the list. -/
def launched (env : Env) (pid : Nat) : Nat → List Str → List (Str × Nat)
  | _, [] => []
  | k, job :: jobs =>
    match env.sys_fork pid k with
    | none => []
    | some p => (job, p) :: launched env pid (k + 1) jobs

/-- The processes one launched job adds to the table of `s`: the child and
whatever the child forked itself. -/
def job_procs (env : Env) (s : Shell) (jp : Str × Nat) : List Proc :=
  (job_child env jp.1 jp.2 s).toProc :: (job_child env jp.1 jp.2 s).spawned

/-- The non-empty maximal `&`-free substrings of a line, in order. -/
def amp_pieces (line : Str) : List Str :=
  (line.splitOn '&').filter (fun j => !j.isEmpty)

/-- A token of the job parser: non-empty, with no space and no tab. -/
def is_word (a : Str) : Bool := !a.isEmpty && a.all (fun c => decide (c ∉ blanks))

/-- A run of spaces and tabs, possibly empty. -/
def is_blank_run (w : Str) : Bool := w.all (fun c => decide (c ∈ blanks))

/-- Tokens each followed by a run of blanks; every run but the last one is
non-empty. -/
def well_spaced : List (Str × Str) → Bool
  | [] => true
  | [(a, w)] => is_word a && is_blank_run w
  | (a, w) :: rest => is_word a && is_blank_run w && !w.isEmpty && well_spaced rest

/-- The job string written as `lead`, then every token with its run of blanks. -/
def spaced (lead : Str) (items : List (Str × Str)) : Str :=
  lead ++ (items.map (fun p => p.1 ++ p.2)).flatten

/-- The shell after the launching loop and the waiting loop, written out:
one `fork` event per launched job, the failed `fork` and the error report if
a job was left unlaunched, then one `waitpid` per recorded pid; the table
gains the processes of the launched jobs. -/
def after_jobs (env : Env) (jobs : List Str) (pids : List Nat) (s : Shell) : Shell :=
  { s with
    trace := s.trace ++
      ((launched env s.pid (fork_count s) jobs).map (fun jp => Event.fork (some jp.2)) ++
        ((if (launched env s.pid (fork_count s) jobs).length < jobs.length
            then [Event.fork none, Event.print_error] else []) ++
          (pids ++ (launched env s.pid (fork_count s) jobs).map Prod.snd).map Event.waitpid)),
    spawned := s.spawned ++
      ((launched env s.pid (fork_count s) jobs).map (job_procs env s)).flatten }

/-- Whether an event is a `fork`, a `waitpid` or the error report. -/
def is_fork_wait_error : Event → Bool
  | Event.fork _ => true
  | Event.waitpid _ => true
  | Event.print_error => true
  | _ => false

/-- A sample system whose first `fork` succeeds and whose later ones fail. -/
def env2 : Env where
  sys_access := fun _ => false
  sys_chdir := fun _ d => some d
  sys_fork := fun _ n => if n = 0 then some 100 else none
  sys_open := fun _ => some 3
  sys_execv := fun _ _ => true

/-! ## Helper lemmas -/

theorem copy_paths_tail (a : Str) (dirs : List Str) :
    copy_paths (a :: dirs) dirs.length = dirs := by
  unfold copy_paths
  apply List.ext_getElem
  · simp
  · intro i h1 h2
    simp at h1
    simp [List.getD, h1]

theorem error_count_print_error (s : Shell) :
    error_count (print_error s) = error_count s + 1 := by
  simp [error_count, print_error, emit, List.countP_append]

/-! ## The `path` built-in -/

/-- The whole effect of `path d1 ... dn`: the registry becomes `[d1, ..., dn]`. -/
theorem execute_builtin_path (env : Env) (s : Shell) (dirs : List Str) :
    execute_builtin env (kw_path :: dirs) s = { s with search_paths := dirs } := by
  have h1 : ¬ (kw_path = kw_exit) := by decide
  have h2 : ¬ (kw_path = kw_cd) := by decide
  unfold execute_builtin
  simp only [List.head?_cons, Option.some.injEq, h1, h2, if_false, if_true,
    List.length_cons, Nat.add_sub_cancel]
  by_cases hd : dirs = []
  · subst hd
    simp [free_paths]
  · have hl : ¬ (dirs.length + 1 = 1) := by
      intro h
      exact hd (List.length_eq_zero.mp (by omega))
    simp only [hl, if_false, copy_paths_tail]
    simp [free_paths]

/-- C1: for every prior registry and every argument vector `path d1 ... dn`
(`n >= 0`), `execute_builtin` leaves the registry equal to `[d1, ..., dn]` in the
order given (so `num_paths = n`, duplicates kept, nothing of the old registry
left, empty when `n = 0`), reports no error (the trace is unchanged) and does
not terminate the process (the status is unchanged); nothing else changes. -/
theorem path_sets_registry (env : Env) (s : Shell) (dirs : List Str) :
    (execute_builtin env (kw_path :: dirs) s).search_paths = dirs ∧
    num_paths (execute_builtin env (kw_path :: dirs) s) = dirs.length ∧
    (execute_builtin env (kw_path :: dirs) s).trace = s.trace ∧
    error_count (execute_builtin env (kw_path :: dirs) s) = error_count s ∧
    (execute_builtin env (kw_path :: dirs) s).status = s.status ∧
    execute_builtin env (kw_path :: dirs) s = { s with search_paths := dirs } := by
  rw [execute_builtin_path env s dirs]
  simp [num_paths, error_count]

/-! ## The `exit` and `cd` built-ins -/

/-- C9: for every argument vector whose argument 0 is `exit`: with no further
argument `execute_builtin` empties the registry and terminates the process
with status 0 (reporting nothing); with one or more further arguments it
reports the uniform error exactly once, does not terminate and leaves the
registry unchanged. -/
theorem exit_builtin (env : Env) (s : Shell) :
    ((execute_builtin env [kw_exit] s).search_paths = [] ∧
      num_paths (execute_builtin env [kw_exit] s) = 0 ∧
      (execute_builtin env [kw_exit] s).status = Status.exited 0 ∧
      (execute_builtin env [kw_exit] s).trace = s.trace) ∧
    (∀ (a : Str) (rest : List Str),
      (execute_builtin env (kw_exit :: a :: rest) s).trace = s.trace ++ [Event.print_error] ∧
      error_count (execute_builtin env (kw_exit :: a :: rest) s) = error_count s + 1 ∧
      (execute_builtin env (kw_exit :: a :: rest) s).status = s.status ∧
      (execute_builtin env (kw_exit :: a :: rest) s).search_paths = s.search_paths ∧
      execute_builtin env (kw_exit :: a :: rest) s = print_error s) := by
  constructor
  · simp [execute_builtin, sys_exit, free_paths, num_paths]
  · intro a rest
    have key : execute_builtin env (kw_exit :: a :: rest) s = print_error s := by
      simp [execute_builtin]
    rw [key]
    refine ⟨?_, error_count_print_error s, ?_, ?_, rfl⟩ <;> simp [print_error, emit]

/-- C10: for every argument vector whose argument 0 is `cd`: when the number
of further arguments is not exactly one, `execute_builtin` reports the uniform
error once and never calls `chdir`; when it is exactly one, `chdir` is called
once, with that argument, and the error is reported if and only if the call
fails; in every case the process does not terminate and the registry is
unchanged. -/
theorem cd_builtin (env : Env) (s : Shell) (rest : List Str) :
    (rest.length ≠ 1 →
      (execute_builtin env (kw_cd :: rest) s).trace = s.trace ++ [Event.print_error] ∧
      error_count (execute_builtin env (kw_cd :: rest) s) = error_count s + 1 ∧
      chdir_count (execute_builtin env (kw_cd :: rest) s) = chdir_count s ∧
      (execute_builtin env (kw_cd :: rest) s).cwd = s.cwd) ∧
    (∀ dir : Str, rest = [dir] →
      (execute_builtin env (kw_cd :: rest) s).trace =
        s.trace ++ Event.chdir dir ::
          (if env.sys_chdir s.cwd dir = none then [Event.print_error] else []) ∧
      chdir_count (execute_builtin env (kw_cd :: rest) s) = chdir_count s + 1 ∧
      (error_count (execute_builtin env (kw_cd :: rest) s) = error_count s + 1 ↔
        env.sys_chdir s.cwd dir = none) ∧
      (error_count (execute_builtin env (kw_cd :: rest) s) = error_count s ↔
        env.sys_chdir s.cwd dir ≠ none) ∧
      (execute_builtin env (kw_cd :: rest) s).cwd = (env.sys_chdir s.cwd dir).getD s.cwd) ∧
    (execute_builtin env (kw_cd :: rest) s).status = s.status ∧
    (execute_builtin env (kw_cd :: rest) s).search_paths = s.search_paths := by
  have h1 : ¬ (kw_cd = kw_exit) := by decide
  refine ⟨?_, ?_, ?_, ?_⟩
  · intro hlen
    have key : execute_builtin env (kw_cd :: rest) s = print_error s := by
      unfold execute_builtin
      have : ¬ (rest.length + 1 = 2) := by omega
      simp [h1, this]
    rw [key]
    refine ⟨?_, error_count_print_error s, ?_, ?_⟩ <;>
      simp [print_error, emit, chdir_count, List.countP_append]
  · intro dir hrest
    subst hrest
    unfold execute_builtin
    simp only [List.head?_cons, Option.some.injEq, h1, if_false, if_true,
      List.length_cons, List.length_nil]
    cases hc : env.sys_chdir s.cwd dir with
    | none =>
      simp [List.getD, hc, print_error, emit, error_count, chdir_count, List.countP_append]
    | some d =>
      simp [List.getD, hc, emit, error_count, chdir_count, List.countP_append]
  · unfold execute_builtin
    simp only [List.head?_cons, Option.some.injEq, h1, if_false, if_true]
    split
    · simp [print_error, emit]
    · split <;> simp [print_error, emit]
  · unfold execute_builtin
    simp only [List.head?_cons, Option.some.injEq, h1, if_false, if_true]
    split
    · simp [print_error, emit]
    · split <;> simp [print_error, emit]

/-- Witness of C10: `cd` alone reports the error without calling `chdir`, and
`cd /tmp` in a system where `chdir` fails calls it once and reports once. -/
theorem cd_builtin_witness :
    (([] : List Str).length ≠ 1 ∧
      (execute_builtin env1 [kw_cd] s0).trace = s0.trace ++ [Event.print_error] ∧
      error_count (execute_builtin env1 [kw_cd] s0) = error_count s0 + 1 ∧
      chdir_count (execute_builtin env1 [kw_cd] s0) = chdir_count s0 ∧
      (execute_builtin env1 [kw_cd] s0).cwd = s0.cwd) ∧
    (execute_builtin env1 [kw_cd, ['/', 't', 'm', 'p']] s0).trace =
      s0.trace ++ Event.chdir ['/', 't', 'm', 'p'] ::
        (if env1.sys_chdir s0.cwd ['/', 't', 'm', 'p'] = none then [Event.print_error] else []) :=
  ⟨⟨by decide, (cd_builtin env1 s0 []).1 (by decide)⟩,
   ((cd_builtin env1 s0 [['/', 't', 'm', 'p']]).2.1 ['/', 't', 'm', 'p'] rfl).1⟩

/-! ## The resolver -/

theorem snprintf_path_short (dir cmd : Str) (h : (dir ++ '/' :: cmd).length < 512) :
    snprintf_path dir cmd = dir ++ '/' :: cmd := by
  unfold snprintf_path
  exact List.take_of_length_le (by omega)

theorem find_loop_some (env : Env) (cmd : Str) (dirs : List Str) (p : Str) :
    find_loop env cmd dirs = some p ↔
      ∃ (i : Nat) (d : Str), dirs[i]? = some d ∧ p = snprintf_path d cmd ∧ env.sys_access p = true ∧
        ∀ (j : Nat) (e : Str), j < i → dirs[j]? = some e → env.sys_access (snprintf_path e cmd) = false := by
  induction dirs with
  | nil => simp [find_loop]
  | cons dir dirs ih =>
    unfold find_loop
    by_cases hacc : env.sys_access (snprintf_path dir cmd) = true
    · simp only [hacc, if_true, Option.some.injEq]
      constructor
      · intro h
        subst h
        exact ⟨0, dir, by simp, rfl, hacc, by intro j e hj; omega⟩
      · rintro ⟨i, d, hd, hp, _, hmin⟩
        cases i with
        | zero =>
          simp at hd
          subst hd
          exact hp.symm
        | succ k =>
          have := hmin 0 dir (by omega) (by simp)
          rw [hacc] at this
          cases this
    · have hf : env.sys_access (snprintf_path dir cmd) = false := by
        simpa using hacc
      simp only [hf, Bool.false_eq_true, if_false]
      rw [ih]
      constructor
      · rintro ⟨i, d, hd, hp, ha, hmin⟩
        refine ⟨i + 1, d, by simpa using hd, hp, ha, ?_⟩
        intro j e hj he
        cases j with
        | zero =>
          simp at he
          subst he
          exact hf
        | succ k => exact hmin k e (by omega) (by simpa using he)
      · rintro ⟨i, d, hd, hp, ha, hmin⟩
        cases i with
        | zero =>
          simp at hd
          subst hd
          rw [hp, hf] at ha
          cases ha
        | succ k =>
          refine ⟨k, d, by simpa using hd, hp, ha, ?_⟩
          intro j e hj he
          exact hmin (j + 1) e (by omega) (by simpa using he)

theorem find_loop_none (env : Env) (cmd : Str) (dirs : List Str) :
    find_loop env cmd dirs = none ↔
      ∀ d ∈ dirs, env.sys_access (snprintf_path d cmd) = false := by
  induction dirs with
  | nil => simp [find_loop]
  | cons dir dirs ih =>
    unfold find_loop
    by_cases hacc : env.sys_access (snprintf_path dir cmd) = true
    · simp [hacc]
    · have hf : env.sys_access (snprintf_path dir cmd) = false := by
        simpa using hacc
      simp [hf, ih]

theorem find_executable_eq_loop (env : Env) (s : Shell) (cmd : Str) :
    find_executable env s cmd = find_loop env cmd s.search_paths := by
  unfold find_executable num_paths
  split
  · next h =>
    rw [List.length_eq_zero.mp h]
    rfl
  · rfl

/-- C7: for every registry `[d1, ..., dn]` and command name `c` with each
`di/c` shorter than 512 bytes, `find_executable` returns `di/c` exactly for the
smallest index `i` whose `di/c` is executable (every earlier directory was
probed and was not), and returns no result exactly when no `di/c` is
executable; with an empty registry it returns no result for every name. -/
theorem find_executable_first (env : Env) (s : Shell) (c : Str)
    (hlen : ∀ d ∈ s.search_paths, (d ++ '/' :: c).length < 512) :
    (∀ p : Str, find_executable env s c = some p ↔
      ∃ (i : Nat) (d : Str), s.search_paths[i]? = some d ∧ p = d ++ '/' :: c ∧
        env.sys_access (d ++ '/' :: c) = true ∧
        ∀ (j : Nat) (e : Str), j < i → s.search_paths[j]? = some e →
          env.sys_access (e ++ '/' :: c) = false) ∧
    (find_executable env s c = none ↔
      ∀ d ∈ s.search_paths, env.sys_access (d ++ '/' :: c) = false) ∧
    (s.search_paths = [] → ∀ c2 : Str, find_executable env s c2 = none) := by
  have hmem : ∀ (i : Nat) (d : Str), s.search_paths[i]? = some d → d ∈ s.search_paths := by
    intro i d h
    exact List.getElem?_mem h
  refine ⟨?_, ?_, ?_⟩
  · intro p
    rw [find_executable_eq_loop, find_loop_some]
    constructor
    · rintro ⟨i, d, hd, hp, ha, hmin⟩
      have hs := snprintf_path_short d c (hlen d (hmem i d hd))
      refine ⟨i, d, hd, by rw [hp, hs], by rw [← hs, ← hp]; exact ha, ?_⟩
      intro j e hj he
      rw [← snprintf_path_short e c (hlen e (hmem j e he))]
      exact hmin j e hj he
    · rintro ⟨i, d, hd, hp, ha, hmin⟩
      have hs := snprintf_path_short d c (hlen d (hmem i d hd))
      refine ⟨i, d, hd, by rw [hp, hs], by rw [hp]; exact ha, ?_⟩
      intro j e hj he
      rw [snprintf_path_short e c (hlen e (hmem j e he))]
      exact hmin j e hj he
  · rw [find_executable_eq_loop, find_loop_none]
    constructor
    · intro h d hd
      rw [← snprintf_path_short d c (hlen d hd)]
      exact h d hd
    · intro h d hd
      rw [snprintf_path_short d c (hlen d hd)]
      exact h d hd
  · intro hnil c2
    rw [find_executable_eq_loop, hnil]
    rfl

/-- Witness of C7: with the registry `["/bin"]` the name `ls` resolves to
`/bin/ls`, the only executable of the sample system. -/
theorem find_executable_first_witness :
    (∀ d ∈ s0.search_paths, (d ++ '/' :: ['l', 's']).length < 512) ∧
    find_executable env0 s0 ['l', 's'] = some ['/', 'b', 'i', 'n', '/', 'l', 's'] :=
  ⟨by decide,
   ((find_executable_first env0 s0 ['l', 's'] (by decide)).1
      ['/', 'b', 'i', 'n', '/', 'l', 's']).2
     ⟨0, ['/', 'b', 'i', 'n'], rfl, rfl, by decide,
      fun j _ hj _ => absurd hj (Nat.not_lt_zero j)⟩⟩

/-! ## The tokenizing loop, one iteration at a time -/

theorem parse_loop_nil (args : List Str) (rf : Option Str) (rc : Nat) :
    parse_loop [] args rf rc = parse_finish args rf rc := by
  simp [parse_loop]

theorem parse_loop_full (t : Str) (rest args : List Str) (rf : Option Str) (rc : Nat)
    (h : ¬ args.length < 511) :
    parse_loop (t :: rest) args rf rc = parse_finish args rf rc := by
  rw [parse_loop.eq_def]
  simp only [h, if_false]

theorem parse_loop_word (t : Str) (rest args : List Str) (rf : Option Str) (rc : Nat)
    (h : args.length < 511) (ht : t ≠ gt) :
    parse_loop (t :: rest) args rf rc = parse_loop rest (args ++ [t]) rf rc := by
  rw [parse_loop.eq_def]
  simp only [h, ht, if_true, if_false]

theorem parse_loop_gt_nil (args : List Str) (rf : Option Str) (rc : Nat)
    (h : args.length < 511) :
    parse_loop [gt] args rf rc = Parsed.error := by
  rw [parse_loop]
  simp only [h, if_true]

theorem parse_loop_gt_last (f : Str) (args : List Str) (rf : Option Str) (rc : Nat)
    (h : args.length < 511) :
    parse_loop [gt, f] args rf rc = parse_finish args (some f) (rc + 1) := by
  rw [parse_loop]
  simp only [h, if_true, parse_loop_nil]

theorem parse_loop_gt_word (f x : Str) (rest args : List Str) (rf : Option Str) (rc : Nat)
    (h : args.length < 511) (hx : x ≠ gt) :
    parse_loop (gt :: f :: x :: rest) args rf rc = Parsed.error := by
  rw [parse_loop]
  simp only [h, hx, if_true, ne_eq, not_false_eq_true]

theorem parse_loop_gt_gt (f : Str) (rest args : List Str) (rf : Option Str) (rc : Nat)
    (h : args.length < 511) :
    parse_loop (gt :: f :: gt :: rest) args rf rc =
      parse_loop (gt :: rest) args (some f) (rc + 1) := by
  rw [parse_loop]
  simp only [h, if_true, ne_eq, not_true_eq_false, if_false]

/-- Once a `>` has been counted, a further `>` at the head of the loop always
ends in the error. -/
theorem parse_loop_second_gt (n : Nat) :
    ∀ (rest args : List Str) (rf : Option Str) (rc : Nat), rest.length ≤ n →
      args.length < 511 → 1 ≤ rc → parse_loop (gt :: rest) args rf rc = Parsed.error := by
  induction n with
  | zero =>
    intro rest args rf rc hn h hrc
    have : rest = [] := List.length_eq_zero.mp (by omega)
    subst this
    exact parse_loop_gt_nil args rf rc h
  | succ n ih =>
    intro rest args rf rc hn h hrc
    match rest, hn with
    | [], _ => exact parse_loop_gt_nil args rf rc h
    | [f], _ =>
      rw [parse_loop_gt_last f args rf rc h]
      unfold parse_finish
      have : rc + 1 > 1 := by omega
      simp only [this, if_true]
    | f :: x :: rest3, hn =>
      by_cases hx : x = gt
      · subst hx
        rw [parse_loop_gt_gt f rest3 args rf rc h]
        apply ih rest3 args (some f) (rc + 1) _ h (by omega)
        simp only [List.length_cons] at hn
        omega
      · exact parse_loop_gt_word f x rest3 args rf rc h hx

/-- A `>` met while no argument has been stored always ends in the error. -/
theorem parse_loop_gt_first (rest : List Str) (rf : Option Str) (rc : Nat) :
    parse_loop (gt :: rest) [] rf rc = Parsed.error := by
  have h : ([] : List Str).length < 511 := by decide
  match rest with
  | [] => exact parse_loop_gt_nil [] rf rc h
  | [f] =>
    rw [parse_loop_gt_last f [] rf rc h]
    unfold parse_finish
    by_cases hrc : rc + 1 > 1
    · simp only [hrc, if_true]
    · simp [hrc]
  | f :: x :: rest3 =>
    by_cases hx : x = gt
    · subst hx
      rw [parse_loop_gt_gt f rest3 [] rf rc h]
      exact parse_loop_second_gt rest3.length rest3 [] (some f) (rc + 1) (le_refl _) h (by omega)
    · exact parse_loop_gt_word f x rest3 [] rf rc h hx

/-- A `>` followed by a file and at least one more token ends in the error. -/
theorem parse_loop_gt_trailing (f x : Str) (rest args : List Str) (rf : Option Str)
    (rc : Nat) (h : args.length < 511) :
    parse_loop (gt :: f :: x :: rest) args rf rc = Parsed.error := by
  by_cases hx : x = gt
  · subst hx
    rw [parse_loop_gt_gt f rest args rf rc h]
    exact parse_loop_second_gt rest.length rest args (some f) (rc + 1) (le_refl _) h (by omega)
  · exact parse_loop_gt_word f x rest args rf rc h hx

/-- Words that are not `>` are stored one by one while there is room. -/
theorem parse_loop_words (pre : List Str) :
    ∀ (rest args : List Str) (rf : Option Str) (rc : Nat),
      (∀ t ∈ pre, t ≠ gt) → args.length + pre.length ≤ 511 →
      parse_loop (pre ++ rest) args rf rc = parse_loop rest (args ++ pre) rf rc := by
  induction pre with
  | nil => intro rest args rf rc _ _; simp
  | cons t pre ih =>
    intro rest args rf rc hpre hlen
    simp only [List.length_cons] at hlen
    rw [List.cons_append, parse_loop_word t (pre ++ rest) args rf rc (by omega)
      (hpre t (List.mem_cons_self t pre))]
    rw [ih rest (args ++ [t]) rf rc (fun u hu => hpre u (List.mem_cons_of_mem t hu))
      (by simp only [List.length_append, List.length_singleton]; omega)]
    simp

/-- What the checks after the loop can return as a command has an argument. -/
theorem parse_finish_command (args : List Str) (rf : Option Str) (rc : Nat)
    (args2 : List Str) (rf2 : Option Str)
    (h : parse_finish args rf rc = Parsed.command args2 rf2) : args2 ≠ [] := by
  unfold parse_finish at h
  split at h
  · cases h
  · split at h
    · split at h <;> cases h
    · next hne =>
      cases h
      intro hnil
      exact hne (by simp [hnil])

/-- The loop ends in the error or in the checks of l.319-337. -/
theorem parse_loop_ends (toks args : List Str) (rf : Option Str) (rc : Nat) :
    parse_loop toks args rf rc = Parsed.error ∨
      ∃ args2 rf2 rc2, parse_loop toks args rf rc = parse_finish args2 rf2 rc2 := by
  induction toks, args, rf, rc using parse_loop.induct with
  | case1 args rf rc => exact Or.inr ⟨args, rf, rc, parse_loop_nil args rf rc⟩
  | case2 args rf rc h => exact Or.inl (parse_loop_gt_nil args rf rc h)
  | case3 args rf rc h f _ =>
    exact Or.inr ⟨args, some f, rc + 1, parse_loop_gt_last f args rf rc h⟩
  | case4 args rf rc h f x rest hx =>
    exact Or.inl (parse_loop_gt_word f x rest args rf rc h hx)
  | case5 args rf rc h f x rest hx _ =>
    exact Or.inl (parse_loop_gt_trailing f x rest args rf rc h)
  | case6 t rest args rf rc h ht ih =>
    rw [parse_loop_word t rest args rf rc h ht]
    exact ih
  | case7 t rest args rf rc h =>
    exact Or.inr ⟨args, rf, rc, parse_loop_full t rest args rf rc h⟩

/-- A command that reaches the dispatch has at least one argument. -/
theorem parse_loop_command_nonempty (toks args : List Str) (rf : Option Str) (rc : Nat)
    (args2 : List Str) (rf2 : Option Str)
    (h : parse_loop toks args rf rc = Parsed.command args2 rf2) : args2 ≠ [] := by
  rcases parse_loop_ends toks args rf rc with he | ⟨a, r, c, hf⟩
  · rw [he] at h
    cases h
  · rw [hf] at h
    exact parse_finish_command a r c args2 rf2 h

theorem parse_and_execute_single_error (env : Env) (cmd : Str) (s : Shell)
    (h : parse_single cmd = Parsed.error) :
    parse_and_execute_single env cmd s = print_error s := by
  unfold parse_and_execute_single
  rw [h]

theorem parse_and_execute_single_command (env : Env) (cmd : Str) (s : Shell)
    (args : List Str) (rf : Option Str) (h : parse_single cmd = Parsed.command args rf) :
    parse_and_execute_single env cmd s = dispatch env args rf s := by
  unfold parse_and_execute_single
  rw [h]

/-! ## Claims on the parser -/

/-- C2 (the code departs from the claim): the job `ls > >` has two `>` tokens,
yet the parser takes the second one as the name of the target file, reports
nothing and dispatches `ls` with its output redirected to a file called `>`. -/
theorem double_redirect_accepted :
    strtok_all blanks ['l', 's', ' ', '>', ' ', '>'] = [['l', 's'], gt, gt] ∧
    List.count gt (strtok_all blanks ['l', 's', ' ', '>', ' ', '>']) = 2 ∧
    parse_single ['l', 's', ' ', '>', ' ', '>'] = Parsed.command [['l', 's']] (some gt) ∧
    error_count (parse_and_execute_single env0 ['l', 's', ' ', '>', ' ', '>'] s0) = 0 ∧
    (parse_and_execute_single env0 ['l', 's', ' ', '>', ' ', '>'] s0).trace =
      [Event.fork (some 100), Event.wait] ∧
    (parse_and_execute_single env0 ['l', 's', ' ', '>', ' ', '>'] s0).spawned.map Proc.trace =
      [[Event.sys_open gt [OFlag.O_WRONLY, OFlag.O_CREAT, OFlag.O_TRUNC] 0o644 (some 3),
        Event.dup2 3 STDOUT_FILENO, Event.dup2 3 STDERR_FILENO, Event.close 3,
        Event.execv ['/', 'b', 'i', 'n', '/', 'l', 's'] [['l', 's']]]] := by
  decide

/-- C3 as amended: a job whose token list is non-empty and holds no `>` is
parsed without error and dispatched, with no redirection target (and with its
first 511 tokens as arguments); a job whose token list is `a1 ... ak > f` with
`1 <= k <= 510`, no `ai` equal to `>` and `f` not `>`, is parsed without error
and dispatched with arguments `[a1, ..., ak]` and redirection target `f`, the
token right after `>`. -/
theorem parse_accepts_wellformed (env : Env) (s : Shell) (cmd : Str) :
    (∀ toks : List Str, strtok_all blanks cmd = toks → toks ≠ [] →
      (∀ t ∈ toks, t ≠ gt) →
      parse_single cmd = Parsed.command (toks.take 511) none ∧
      parse_and_execute_single env cmd s = dispatch env (toks.take 511) none s) ∧
    (∀ (pre : List Str) (f : Str), strtok_all blanks cmd = pre ++ [gt, f] → pre ≠ [] →
      (∀ t ∈ pre, t ≠ gt) → f ≠ gt → pre.length ≤ 510 →
      parse_single cmd = Parsed.command pre (some f) ∧
      parse_and_execute_single env cmd s = dispatch env pre (some f) s) := by
  constructor
  · intro toks htok hne hword
    have hp : parse_single cmd = Parsed.command (toks.take 511) none := by
      unfold parse_single
      rw [htok]
      have hsplit : toks = toks.take 511 ++ toks.drop 511 := (List.take_append_drop 511 toks).symm
      have hw : ∀ t ∈ toks.take 511, t ≠ gt := fun t ht => hword t (List.mem_of_mem_take ht)
      have hl : ([] : List Str).length + (toks.take 511).length ≤ 511 := by
        rw [List.length_take, List.length_nil]
        omega
      have hstep := parse_loop_words (toks.take 511) (toks.drop 511) [] none 0 hw hl
      rw [← hsplit, List.nil_append] at hstep
      rw [hstep]
      have hfin : parse_loop (toks.drop 511) (toks.take 511) none 0 =
          parse_finish (toks.take 511) none 0 := by
        cases hd : toks.drop 511 with
        | nil => exact parse_loop_nil _ _ _
        | cons t rest =>
          apply parse_loop_full
          have hlt : 511 < toks.length := by
            have := congrArg List.length hd
            rw [List.length_drop, List.length_cons] at this
            omega
          rw [List.length_take]
          omega
      rw [hfin]
      unfold parse_finish
      have hlen : ¬ (toks.take 511).length = 0 := by
        rw [List.length_take]
        have : 0 < toks.length := List.length_pos.mpr hne
        omega
      simp only [hlen, if_false]
      simp
    exact ⟨hp, parse_and_execute_single_command env cmd s _ _ hp⟩
  · intro pre f htok hne hword _ hlen
    have hp : parse_single cmd = Parsed.command pre (some f) := by
      unfold parse_single
      rw [htok, parse_loop_words pre [gt, f] [] none 0 hword (by simpa using by omega),
        List.nil_append, parse_loop_gt_last f pre none 0 (by omega)]
      unfold parse_finish
      have hl : ¬ pre.length = 0 := fun h => hne (List.length_eq_zero.mp h)
      simp only [hl, if_false]
      simp
    exact ⟨hp, parse_and_execute_single_command env cmd s _ _ hp⟩

/-- Witness of C3 as amended: `ls` and `ls > out`. -/
theorem parse_accepts_wellformed_witness :
    (strtok_all blanks ['l', 's'] = [['l', 's']] ∧
      parse_single ['l', 's'] = Parsed.command ([['l', 's']].take 511) none ∧
      parse_and_execute_single env0 ['l', 's'] s0 =
        dispatch env0 ([['l', 's']].take 511) none s0) ∧
    (strtok_all blanks ['l', 's', ' ', '>', ' ', 'o', 'u', 't'] =
        [['l', 's']] ++ [gt, ['o', 'u', 't']] ∧
      parse_single ['l', 's', ' ', '>', ' ', 'o', 'u', 't'] =
        Parsed.command [['l', 's']] (some ['o', 'u', 't']) ∧
      parse_and_execute_single env0 ['l', 's', ' ', '>', ' ', 'o', 'u', 't'] s0 =
        dispatch env0 [['l', 's']] (some ['o', 'u', 't']) s0) :=
  ⟨⟨by decide,
    (parse_accepts_wellformed env0 s0 ['l', 's']).1 [['l', 's']] (by decide) (by decide)
      (by decide)⟩,
   ⟨by decide,
    (parse_accepts_wellformed env0 s0 ['l', 's', ' ', '>', ' ', 'o', 'u', 't']).2
      [['l', 's']] ['o', 'u', 't'] (by decide) (by decide) (by decide) (by decide)
      (by decide)⟩⟩

/-- C3 as stated fails: the jobs `ls >` and `ls > o x` each have exactly one
`>` token and one argument before it, yet each is a parse error: the error is
reported and nothing is dispatched. -/
theorem parse_rejects_trailing_gt :
    (strtok_all blanks ['l', 's', ' ', '>'] = [['l', 's'], gt] ∧
      List.count gt (strtok_all blanks ['l', 's', ' ', '>']) = 1 ∧
      parse_single ['l', 's', ' ', '>'] = Parsed.error ∧
      parse_and_execute_single env0 ['l', 's', ' ', '>'] s0 = print_error s0) ∧
    (strtok_all blanks ['l', 's', ' ', '>', ' ', 'o', ' ', 'x'] =
        [['l', 's'], gt, ['o'], ['x']] ∧
      List.count gt (strtok_all blanks ['l', 's', ' ', '>', ' ', 'o', ' ', 'x']) = 1 ∧
      parse_single ['l', 's', ' ', '>', ' ', 'o', ' ', 'x'] = Parsed.error ∧
      parse_and_execute_single env0 ['l', 's', ' ', '>', ' ', 'o', ' ', 'x'] s0 =
        print_error s0) := by
  decide

/-- C4: for every job whose first token is `>`, whatever follows, the parser
ends in the error: `parse_and_execute_single` reports the uniform error
exactly once and dispatches nothing (the state is otherwise unchanged). -/
theorem leading_gt_rejected (env : Env) (s : Shell) (cmd : Str) (rest : List Str)
    (htok : strtok_all blanks cmd = gt :: rest) :
    parse_single cmd = Parsed.error ∧
    parse_and_execute_single env cmd s = print_error s ∧
    (parse_and_execute_single env cmd s).trace = s.trace ++ [Event.print_error] ∧
    error_count (parse_and_execute_single env cmd s) = error_count s + 1 := by
  have hp : parse_single cmd = Parsed.error := by
    unfold parse_single
    rw [htok]
    exact parse_loop_gt_first rest none 0
  have hr := parse_and_execute_single_error env cmd s hp
  refine ⟨hp, hr, ?_, ?_⟩
  · rw [hr]
    rfl
  · rw [hr]
    exact error_count_print_error s

/-- Witness of C4: the job `> out x`. -/
theorem leading_gt_rejected_witness :
    strtok_all blanks ['>', ' ', 'o', 'u', 't', ' ', 'x'] = gt :: [['o', 'u', 't'], ['x']] ∧
    parse_single ['>', ' ', 'o', 'u', 't', ' ', 'x'] = Parsed.error ∧
    parse_and_execute_single env0 ['>', ' ', 'o', 'u', 't', ' ', 'x'] s0 = print_error s0 :=
  ⟨by decide,
   (leading_gt_rejected env0 s0 ['>', ' ', 'o', 'u', 't', ' ', 'x'] [['o', 'u', 't'], ['x']]
      (by decide)).1,
   (leading_gt_rejected env0 s0 ['>', ' ', 'o', 'u', 't', ' ', 'x'] [['o', 'u', 't'], ['x']]
      (by decide)).2.1⟩

/-- A `>` reached by the loop and followed by two or more tokens ends in the
error, whatever precedes it. -/
theorem parse_loop_trailing (pre : List Str) :
    ∀ (f x : Str) (rest args : List Str) (rf : Option Str) (rc : Nat),
      args.length + pre.length < 511 →
      parse_loop (pre ++ gt :: f :: x :: rest) args rf rc = Parsed.error := by
  induction pre with
  | nil =>
    intro f x rest args rf rc hlen
    exact parse_loop_gt_trailing f x rest args rf rc (by simpa using hlen)
  | cons t pre ih =>
    intro f x rest args rf rc hlen
    simp only [List.length_cons] at hlen
    by_cases ht : t = gt
    · subst ht
      have ha : args.length < 511 := by omega
      match pre with
      | [] => exact parse_loop_gt_trailing gt f (x :: rest) args rf rc ha
      | [p] => exact parse_loop_gt_trailing p gt (f :: x :: rest) args rf rc ha
      | p :: q :: more =>
        exact parse_loop_gt_trailing p q (more ++ gt :: f :: x :: rest) args rf rc ha
    · rw [List.cons_append, parse_loop_word t _ args rf rc (by omega) ht]
      exact ih f x rest (args ++ [t]) rf rc
        (by simp only [List.length_append, List.length_singleton]; omega)

/-- C5: for every job in which a redirection target is captured (a `>` that
the loop reaches, that is with at most 510 tokens before it, and the token `f`
right after it) and at least one further token `x` follows that target, the
parser ends in the error, whether `x` is an ordinary word or another `>`:
`parse_and_execute_single` reports the uniform error exactly once and
dispatches nothing. -/
theorem trailing_token_rejected (env : Env) (s : Shell) (cmd : Str)
    (pre : List Str) (f x : Str) (rest : List Str)
    (htok : strtok_all blanks cmd = pre ++ gt :: f :: x :: rest)
    (hlen : pre.length ≤ 510) :
    parse_single cmd = Parsed.error ∧
    parse_and_execute_single env cmd s = print_error s ∧
    (parse_and_execute_single env cmd s).trace = s.trace ++ [Event.print_error] ∧
    error_count (parse_and_execute_single env cmd s) = error_count s + 1 := by
  have hp : parse_single cmd = Parsed.error := by
    unfold parse_single
    rw [htok]
    exact parse_loop_trailing pre f x rest [] none 0
      (by simp only [List.length_nil]; omega)
  have hr := parse_and_execute_single_error env cmd s hp
  refine ⟨hp, hr, ?_, ?_⟩
  · rw [hr]
    rfl
  · rw [hr]
    exact error_count_print_error s

/-- Witness of C5: `ls > out x` (a word follows the target) and `ls > out >`
(a `>` follows the target). -/
theorem trailing_token_rejected_witness :
    (strtok_all blanks ['l', 's', ' ', '>', ' ', 'o', ' ', 'x'] =
        [['l', 's']] ++ gt :: ['o'] :: ['x'] :: [] ∧
      parse_and_execute_single env0 ['l', 's', ' ', '>', ' ', 'o', ' ', 'x'] s0 =
        print_error s0) ∧
    (strtok_all blanks ['l', 's', ' ', '>', ' ', 'o', ' ', '>'] =
        [['l', 's']] ++ gt :: ['o'] :: gt :: [] ∧
      parse_and_execute_single env0 ['l', 's', ' ', '>', ' ', 'o', ' ', '>'] s0 =
        print_error s0) :=
  ⟨⟨by decide,
    (trailing_token_rejected env0 s0 ['l', 's', ' ', '>', ' ', 'o', ' ', 'x']
      [['l', 's']] ['o'] ['x'] [] (by decide) (by decide)).2.1⟩,
   ⟨by decide,
    (trailing_token_rejected env0 s0 ['l', 's', ' ', '>', ' ', 'o', ' ', '>']
      [['l', 's']] ['o'] gt [] (by decide) (by decide)).2.1⟩⟩

/-- C6 as amended: a job that reduces to zero argument tokens is never
dispatched.  When it has no token at all (empty or only blanks) nothing is
reported and the state is unchanged; when its first token is `>` the uniform
error is reported exactly once.  Whatever is dispatched has at least one
argument. -/
theorem no_argument_job (env : Env) (s : Shell) (cmd : Str) :
    (strtok_all blanks cmd = [] →
      parse_single cmd = Parsed.empty ∧ parse_and_execute_single env cmd s = s) ∧
    (∀ rest : List Str, strtok_all blanks cmd = gt :: rest →
      parse_single cmd = Parsed.error ∧
      parse_and_execute_single env cmd s = print_error s ∧
      error_count (parse_and_execute_single env cmd s) = error_count s + 1) ∧
    (∀ (args : List Str) (rf : Option Str),
      parse_single cmd = Parsed.command args rf → args ≠ []) := by
  refine ⟨?_, ?_, ?_⟩
  · intro htok
    have hp : parse_single cmd = Parsed.empty := by
      unfold parse_single
      rw [htok, parse_loop_nil]
      decide
    refine ⟨hp, ?_⟩
    unfold parse_and_execute_single
    rw [hp]
  · intro rest htok
    have hp : parse_single cmd = Parsed.error := by
      unfold parse_single
      rw [htok]
      exact parse_loop_gt_first rest none 0
    have hr := parse_and_execute_single_error env cmd s hp
    refine ⟨hp, hr, ?_⟩
    rw [hr]
    exact error_count_print_error s
  · intro args rf h
    exact parse_loop_command_nonempty _ _ _ _ args rf h

/-- Witness of C6 as amended: the job made of two blanks, and the job `> out`. -/
theorem no_argument_job_witness :
    (strtok_all blanks [' ', ' '] = [] ∧
      parse_and_execute_single env0 [' ', ' '] s0 = s0) ∧
    (strtok_all blanks ['>', ' ', 'o', 'u', 't'] = gt :: [['o', 'u', 't']] ∧
      parse_and_execute_single env0 ['>', ' ', 'o', 'u', 't'] s0 = print_error s0) :=
  ⟨⟨by decide, ((no_argument_job env0 s0 [' ', ' ']).1 (by decide)).2⟩,
   ⟨by decide,
    ((no_argument_job env0 s0 ['>', ' ', 'o', 'u', 't']).2.1 [['o', 'u', 't']]
      (by decide)).2.1⟩⟩

/-- C6 as stated fails: a job of blanks only (as in the line `ls & `, whose
second job is one blank) reduces to zero argument tokens with no redirection
target, and no error is reported for it. -/
theorem blank_job_is_silent :
    strtok_all blanks [' '] = [] ∧
    parse_single [' '] = Parsed.empty ∧
    parse_and_execute_single env0 [' '] s0 = s0 ∧
    error_count (parse_and_execute_single env0 [' '] s0) = error_count s0 ∧
    (parse_and_execute_single env0 [' '] s0).trace = [] := by
  decide

/-! ## An empty registry -/

theorem is_builtin_iff (a : Str) :
    is_builtin (some a) = true ↔ a = kw_exit ∨ a = kw_cd ∨ a = kw_path := by
  unfold is_builtin
  by_cases h1 : a = kw_exit
  · simp [h1]
  · by_cases h2 : a = kw_cd
    · simp [h2]
    · by_cases h3 : a = kw_path
      · simp [h3]
      · simp [h1, h2, h3]

/-- Once an argument is stored, the loop ends in the error or in a command
whose argument 0 is that first argument. -/
theorem parse_loop_keeps_first (toks args : List Str) (rf : Option Str) (rc : Nat)
    (a : Str) :
    args.head? = some a →
    parse_loop toks args rf rc = Parsed.error ∨
      ∃ (more : List Str) (rf2 : Option Str),
        parse_loop toks args rf rc = Parsed.command (a :: more) rf2 := by
  have hfin : ∀ (l : List Str) (r : Option Str) (c : Nat), l.head? = some a →
      parse_finish l r c = Parsed.error ∨
        ∃ (more : List Str) (rf2 : Option Str),
          parse_finish l r c = Parsed.command (a :: more) rf2 := by
    intro l r c hl
    cases l with
    | nil => cases hl
    | cons x tl =>
      simp only [List.head?_cons, Option.some.injEq] at hl
      subst hl
      unfold parse_finish
      by_cases hc : c > 1
      · left
        simp only [hc, if_true]
      · right
        refine ⟨tl, r, ?_⟩
        simp [hc]
  induction toks, args, rf, rc using parse_loop.induct with
  | case1 args rf rc =>
    intro ha
    rw [parse_loop_nil]
    exact hfin _ _ _ ha
  | case2 args rf rc hroom =>
    intro _
    exact Or.inl (parse_loop_gt_nil args rf rc hroom)
  | case3 args rf rc hroom f _ =>
    intro ha
    rw [parse_loop_gt_last f args rf rc hroom]
    exact hfin _ _ _ ha
  | case4 args rf rc hroom f x rest hx =>
    intro _
    exact Or.inl (parse_loop_gt_word f x rest args rf rc hroom hx)
  | case5 args rf rc hroom f x rest hx _ =>
    intro _
    exact Or.inl (parse_loop_gt_trailing f x rest args rf rc hroom)
  | case6 t rest args rf rc hroom ht ih =>
    intro ha
    rw [parse_loop_word t rest args rf rc hroom ht]
    apply ih
    cases args with
    | nil => cases ha
    | cons x tl => simpa using ha
  | case7 t rest args rf rc hroom =>
    intro ha
    rw [parse_loop_full t rest args rf rc hroom]
    exact hfin _ _ _ ha

/-- A job whose first token is a word is a parse error or a command whose
argument 0 is that word. -/
theorem parse_single_first_word (cmd : Str) (a0 : Str) (rest : List Str)
    (htok : strtok_all blanks cmd = a0 :: rest) (h0 : a0 ≠ gt) :
    parse_single cmd = Parsed.error ∨
      ∃ (more : List Str) (rf : Option Str),
        parse_single cmd = Parsed.command (a0 :: more) rf := by
  unfold parse_single
  rw [htok, parse_loop_word a0 rest [] none 0 (by decide) h0]
  exact parse_loop_keeps_first rest ([] ++ [a0]) none 0 a0 rfl

/-- With an empty registry an external command reports the error once and
returns before `fork`. -/
theorem execute_external_unresolved (env : Env) (s : Shell) (a0 : Str)
    (more : List Str) (rf : Option Str) (hpaths : s.search_paths = []) :
    execute_external env (a0 :: more) rf s = print_error s := by
  unfold execute_external
  simp only [List.head?_cons]
  rw [find_executable_eq_loop, hpaths]
  rfl

/-- C8 as amended: after `path` with zero arguments, for every job with at
least one argument token (its first token `a0` is not `>`): when `a0` is
exactly `exit`, `cd` or `path`, the job either is a parse error (the uniform
error is reported once and nothing is dispatched) or is handled by
`execute_builtin` on its parsed argument vector, whose argument 0 is `a0`;
for any other `a0` the job, parsed or not, reports the uniform error exactly
once and creates no process (no `fork` is attempted, no child appears,
nothing else changes). -/
theorem empty_registry_jobs (envp env : Env) (s : Shell) (cmd : Str)
    (a0 : Str) (rest : List Str)
    (htok : strtok_all blanks cmd = a0 :: rest) (h0 : a0 ≠ gt) :
    (execute_builtin envp [kw_path] s).search_paths = [] ∧
    ((a0 = kw_exit ∨ a0 = kw_cd ∨ a0 = kw_path) →
      (parse_single cmd = Parsed.error ∧
        parse_and_execute_single env cmd (execute_builtin envp [kw_path] s) =
          print_error (execute_builtin envp [kw_path] s)) ∨
      (∃ (more : List Str) (rf : Option Str),
        parse_single cmd = Parsed.command (a0 :: more) rf ∧
        parse_and_execute_single env cmd (execute_builtin envp [kw_path] s) =
          execute_builtin env (a0 :: more) (execute_builtin envp [kw_path] s))) ∧
    (¬ (a0 = kw_exit ∨ a0 = kw_cd ∨ a0 = kw_path) →
      parse_and_execute_single env cmd (execute_builtin envp [kw_path] s) =
        print_error (execute_builtin envp [kw_path] s) ∧
      error_count (parse_and_execute_single env cmd (execute_builtin envp [kw_path] s)) =
        error_count (execute_builtin envp [kw_path] s) + 1 ∧
      fork_count (parse_and_execute_single env cmd (execute_builtin envp [kw_path] s)) =
        fork_count (execute_builtin envp [kw_path] s) ∧
      (parse_and_execute_single env cmd (execute_builtin envp [kw_path] s)).spawned =
        (execute_builtin envp [kw_path] s).spawned) := by
  have hpaths : (execute_builtin envp [kw_path] s).search_paths = [] := by
    rw [execute_builtin_path envp s []]
  refine ⟨hpaths, ?_, ?_⟩
  · intro hb
    rcases parse_single_first_word cmd a0 rest htok h0 with he | ⟨more, rf, hc⟩
    · exact Or.inl ⟨he, parse_and_execute_single_error env cmd _ he⟩
    · refine Or.inr ⟨more, rf, hc, ?_⟩
      rw [parse_and_execute_single_command env cmd _ _ _ hc]
      unfold dispatch
      rw [List.head?_cons, (is_builtin_iff a0).mpr hb]
      rfl
  · intro hb
    have hnb : is_builtin (some a0) = false := by
      cases h : is_builtin (some a0) with
      | false => rfl
      | true => exact absurd ((is_builtin_iff a0).mp h) hb
    have key : parse_and_execute_single env cmd (execute_builtin envp [kw_path] s) =
        print_error (execute_builtin envp [kw_path] s) := by
      rcases parse_single_first_word cmd a0 rest htok h0 with he | ⟨more, rf, hc⟩
      · exact parse_and_execute_single_error env cmd _ he
      · rw [parse_and_execute_single_command env cmd _ _ _ hc]
        unfold dispatch
        rw [List.head?_cons, hnb]
        simp only [Bool.false_eq_true, if_false]
        exact execute_external_unresolved env _ a0 more rf hpaths
    rw [key]
    refine ⟨rfl, error_count_print_error _, ?_, rfl⟩
    simp [fork_count, print_error, emit, List.countP_append]

/-- Witness of C8 as amended: after `path`, in a system where `/bin/ls` is
executable, the jobs `ls` and `ls > a b` each report the error once and fork
nothing, while the job `cd /tmp` is handled by `execute_builtin`. -/
theorem empty_registry_jobs_witness :
    (strtok_all blanks ['l', 's'] = ['l', 's'] :: [] ∧
      parse_and_execute_single env0 ['l', 's'] (execute_builtin env0 [kw_path] s0) =
        print_error (execute_builtin env0 [kw_path] s0)) ∧
    (strtok_all blanks ['l', 's', ' ', '>', ' ', 'a', ' ', 'b'] =
        ['l', 's'] :: [gt, ['a'], ['b']] ∧
      parse_and_execute_single env0 ['l', 's', ' ', '>', ' ', 'a', ' ', 'b']
          (execute_builtin env0 [kw_path] s0) =
        print_error (execute_builtin env0 [kw_path] s0)) ∧
    (strtok_all blanks ['c', 'd', ' ', '/', 't', 'm', 'p'] = kw_cd :: [['/', 't', 'm', 'p']] ∧
      ((parse_single ['c', 'd', ' ', '/', 't', 'm', 'p'] = Parsed.error ∧
        parse_and_execute_single env0 ['c', 'd', ' ', '/', 't', 'm', 'p']
            (execute_builtin env0 [kw_path] s0) =
          print_error (execute_builtin env0 [kw_path] s0)) ∨
      (∃ (more : List Str) (rf : Option Str),
        parse_single ['c', 'd', ' ', '/', 't', 'm', 'p'] = Parsed.command (kw_cd :: more) rf ∧
        parse_and_execute_single env0 ['c', 'd', ' ', '/', 't', 'm', 'p']
            (execute_builtin env0 [kw_path] s0) =
          execute_builtin env0 (kw_cd :: more) (execute_builtin env0 [kw_path] s0))) ∧
      parse_single ['c', 'd', ' ', '/', 't', 'm', 'p'] =
        Parsed.command (kw_cd :: [['/', 't', 'm', 'p']]) none) :=
  ⟨⟨by decide,
    ((empty_registry_jobs env0 env0 s0 ['l', 's'] ['l', 's'] [] (by decide)
      (by decide)).2.2 (by decide)).1⟩,
   ⟨by decide,
    ((empty_registry_jobs env0 env0 s0 ['l', 's', ' ', '>', ' ', 'a', ' ', 'b'] ['l', 's']
      [gt, ['a'], ['b']] (by decide) (by decide)).2.2 (by decide)).1⟩,
   ⟨by decide,
    (empty_registry_jobs env0 env0 s0 ['c', 'd', ' ', '/', 't', 'm', 'p'] kw_cd
      [['/', 't', 'm', 'p']] (by decide) (by decide)).2.1 (by decide),
    by decide⟩⟩

/-- C8 as stated fails: after `path`, the job `exit > a b` has the argument
token `exit` in front, yet it is a parse error: the error is reported, nothing
is dispatched to `execute_builtin`, and the shell keeps running. -/
theorem builtin_job_parse_error :
    strtok_all blanks ['e', 'x', 'i', 't', ' ', '>', ' ', 'a', ' ', 'b'] =
      [kw_exit, gt, ['a'], ['b']] ∧
    parse_single ['e', 'x', 'i', 't', ' ', '>', ' ', 'a', ' ', 'b'] = Parsed.error ∧
    parse_and_execute_single env0 ['e', 'x', 'i', 't', ' ', '>', ' ', 'a', ' ', 'b']
        (execute_builtin env0 [kw_path] s0) =
      print_error (execute_builtin env0 [kw_path] s0) ∧
    (parse_and_execute_single env0 ['e', 'x', 'i', 't', ' ', '>', ' ', 'a', ' ', 'b']
        (execute_builtin env0 [kw_path] s0)).status = Status.running ∧
    (execute_builtin env0 [kw_exit] (execute_builtin env0 [kw_path] s0)).status =
      Status.exited 0 := by
  decide

/-! ## The job splitter -/

theorem fork_count_emit_fork (p : Option Nat) (s : Shell) :
    fork_count (emit [Event.fork p] s) = fork_count s + 1 := by
  simp [fork_count, emit, List.countP_append]

/-- The launching loop in closed form, as long as the pid array has room. -/
theorem fork_loop_eq (env : Env) (nc : Nat) (jobs : List Str) :
    ∀ (pids : List Nat) (s : Shell), pids.length + jobs.length ≤ nc →
      fork_loop env nc jobs pids s = after_jobs env jobs pids s := by
  induction jobs with
  | nil =>
    intro pids s _
    cases s
    simp [fork_loop, after_jobs, wait_all, emit, launched]
  | cons job jobs ih =>
    intro pids s hlen
    simp only [List.length_cons] at hlen
    have hroom : pids.length < nc := by omega
    rw [fork_loop]
    simp only [hroom, if_true]
    cases hf : env.sys_fork s.pid (fork_count s) with
    | none =>
      cases s
      simp only [after_jobs, launched, hf]
      simp [wait_all, print_error, emit]
    | some p =>
      simp only []
      rw [ih (pids ++ [p]) _ (by simp only [List.length_append, List.length_singleton]; omega)]
      have hcount : fork_count
          ({ emit [Event.fork (some p)] s with
            spawned := s.spawned ++
              (job_child env job p s).toProc :: (job_child env job p s).spawned } : Shell) =
          fork_count s + 1 := fork_count_emit_fork (some p) s
      have hprocs : job_procs env
          ({ emit [Event.fork (some p)] s with
            spawned := s.spawned ++
              (job_child env job p s).toProc :: (job_child env job p s).spawned } : Shell) =
          job_procs env s := rfl
      unfold after_jobs
      rw [hcount, hprocs]
      cases s
      simp only [launched, hf]
      simp [emit, job_procs]

theorem count_commands_foldl (line : Str) (n : Nat) :
    line.foldl (fun n c => if c = '&' then n + 1 else n) n = n + line.count '&' := by
  induction line generalizing n with
  | nil => simp
  | cons c cs ih =>
    rw [List.foldl_cons, ih]
    by_cases hc : c = '&'
    · subst hc
      simp
      omega
    · have : ¬ ('&' = c) := fun h => hc h.symm
      simp [hc, List.count_cons, this]

theorem count_commands_eq (line : Str) : count_commands line = 1 + line.count '&' :=
  count_commands_foldl line 1

theorem only_spaces_cons (c : Char) (cs : Str) :
    only_spaces (c :: cs) = if c ≠ ' ' ∧ c ≠ '\t' then false else only_spaces cs := by
  rw [only_spaces]

theorem only_spaces_iff (line : Str) :
    only_spaces line = true ↔ ∀ c ∈ line, c = ' ' ∨ c = '\t' := by
  induction line with
  | nil => simp [only_spaces]
  | cons c cs ih =>
    rw [only_spaces_cons]
    by_cases hc : c ≠ ' ' ∧ c ≠ '\t'
    · rw [if_pos hc]
      constructor
      · intro h
        cases h
      · intro h
        rcases h c (List.mem_cons_self c cs) with h1 | h1
        · exact absurd h1 hc.1
        · exact absurd h1 hc.2
    · rw [if_neg hc, ih]
      constructor
      · intro h d hd
        rcases List.mem_cons.mp hd with h1 | h1
        · subst h1
          by_cases h2 : d = ' '
          · exact Or.inl h2
          · by_cases h3 : d = '\t'
            · exact Or.inr h3
            · exact absurd ⟨h2, h3⟩ hc
        · exact h d h1
      · intro h d hd
        exact h d (List.mem_cons_of_mem c hd)

theorem only_spaces_of_amp (line : Str) (h : '&' ∈ line) : only_spaces line = false := by
  cases hs : only_spaces line with
  | false => rfl
  | true =>
    rcases (only_spaces_iff line).mp hs '&' h with h1 | h1
    · exact absurd h1 (by decide)
    · exact absurd h1 (by decide)

/-- The jobs `strtok` returns for `"&"` are the non-empty pieces between the
`&` characters. -/
theorem strtok_go_amp (line cur : Str) :
    strtok_go amp line cur =
      (List.splitOnP.go (fun c => c == '&') line cur.reverse).filter (fun j => !j.isEmpty) := by
  induction line generalizing cur with
  | nil =>
    unfold strtok_go
    cases cur <;> simp [List.splitOnP.go]
  | cons c cs ih =>
    unfold strtok_go
    by_cases hc : c = '&'
    · subst hc
      have hm : '&' ∈ amp := by decide
      simp only [hm, if_true, List.splitOnP.go, beq_self_eq_true, List.reverse_reverse]
      cases cur with
      | nil =>
        rw [ih []]
        simp
      | cons x xs =>
        rw [ih []]
        simp
    · have hm : ¬ (c ∈ amp) := by
        intro h
        simp [amp] at h
        exact hc h
      have hb : (c == '&') = false := by simpa using hc
      simp only [hm, if_false, List.splitOnP.go, hb, Bool.false_eq_true]
      rw [ih (cur ++ [c])]
      simp

theorem strtok_all_amp (line : Str) : strtok_all amp line = amp_pieces line := by
  unfold strtok_all amp_pieces List.splitOn List.splitOnP
  rw [strtok_go_amp]
  rfl

/-- There are never more jobs than `&` characters plus one. -/
theorem strtok_go_amp_length (line cur : Str) :
    (strtok_go amp line cur).length ≤ 1 + line.count '&' := by
  induction line generalizing cur with
  | nil =>
    unfold strtok_go
    split <;> simp
  | cons c cs ih =>
    unfold strtok_go
    by_cases hc : c = '&'
    · subst hc
      have hm : '&' ∈ amp := by decide
      simp only [hm, if_true, List.count_cons_self]
      split
      · have := ih []
        omega
      · have := ih []
        simp only [List.length_cons]
        omega
    · have hm : ¬ (c ∈ amp) := by
        intro h
        simp [amp] at h
        exact hc h
      have hne : ¬ ('&' = c) := fun h => hc h.symm
      simp only [hm, if_false]
      have := ih (cur ++ [c])
      simp only [List.count_cons, beq_iff_eq, hc, if_false]
      simpa using this

theorem strtok_all_amp_length (line : Str) :
    (strtok_all amp line).length ≤ count_commands line := by
  rw [count_commands_eq]
  exact strtok_go_amp_length line []

/-- A line with an `&` goes through the launching loop, whose effect is
`after_jobs`. -/
theorem parse_and_execute_amp (env : Env) (line : Str) (s : Shell)
    (h : '&' ∈ strip_newline line) :
    parse_and_execute env line s =
      after_jobs env (strtok_all amp (strip_newline line)) [] s := by
  unfold parse_and_execute
  have h1 : ¬ ((strip_newline line).length = 0 ∨ only_spaces (strip_newline line) = true) := by
    rintro (h0 | h0)
    · rw [List.length_eq_zero.mp h0] at h
      cases h
    · rw [only_spaces_of_amp _ h] at h0
      cases h0
  have h2 : ¬ (count_commands (strip_newline line) = 1) := by
    rw [count_commands_eq]
    have : 0 < (strip_newline line).count '&' := List.count_pos_iff.mpr h
    omega
  simp only [h1, h2, if_false]
  exact fork_loop_eq env _ _ [] s (by simpa using strtok_all_amp_length _)

/-- When the first `ps.length` forks return the pids `ps` and either every job
is served or the next fork fails, the launched jobs are the jobs paired with
`ps`. -/
theorem launched_eq_zip (env : Env) (pid : Nat) (jobs : List Str) :
    ∀ (ps : List Nat) (k : Nat), ps.length ≤ jobs.length →
      (∀ i, i < ps.length → env.sys_fork pid (k + i) = some (ps.getD i 0)) →
      (ps.length < jobs.length → env.sys_fork pid (k + ps.length) = none) →
      launched env pid k jobs = List.zip jobs ps := by
  induction jobs with
  | nil =>
    intro ps k _ _ _
    simp [launched]
  | cons job jobs ih =>
    intro ps k hlen hok hfail
    cases ps with
    | nil =>
      have := hfail (by simp)
      simp only [List.length_nil, Nat.add_zero] at this
      simp [launched, this]
    | cons p ps =>
      have h0 := hok 0 (by simp)
      simp only [Nat.add_zero, List.getD_cons_zero] at h0
      simp only [launched, h0, List.zip_cons_cons]
      congr 1
      apply ih ps (k + 1)
      · simpa using hlen
      · intro i hi
        have := hok (i + 1) (by simpa using hi)
        simpa [Nat.add_assoc, Nat.add_comm 1 i] using this
      · intro hlt
        have := hfail (by simpa using hlt)
        simpa [Nat.add_assoc, Nat.add_comm 1 ps.length] using this

theorem launched_length_le (env : Env) (pid : Nat) (jobs : List Str) :
    ∀ k : Nat, (launched env pid k jobs).length ≤ jobs.length := by
  induction jobs with
  | nil => intro k; simp [launched]
  | cons job jobs ih =>
    intro k
    unfold launched
    split
    · simp
    · simp only [List.length_cons]
      have := ih (k + 1)
      omega

theorem launched_length_of_success (env : Env) (pid : Nat) (jobs : List Str) :
    ∀ k : Nat, (∀ i, i < jobs.length → env.sys_fork pid (k + i) ≠ none) →
      (launched env pid k jobs).length = jobs.length := by
  induction jobs with
  | nil => intro k _; simp [launched]
  | cons job jobs ih =>
    intro k hok
    unfold launched
    split
    · next hnone =>
      have := hok 0 (by simp)
      simp only [Nat.add_zero] at this
      exact absurd hnone this
    · simp only [List.length_cons]
      rw [ih (k + 1)]
      intro i hi
      have := hok (i + 1) (by simpa using hi)
      simpa [Nat.add_assoc, Nat.add_comm 1 i] using this

theorem fork_count_after_jobs (env : Env) (jobs : List Str) (s : Shell) :
    fork_count (after_jobs env jobs [] s) =
      fork_count s + (launched env s.pid (fork_count s) jobs).length +
        (if (launched env s.pid (fork_count s) jobs).length < jobs.length then 1 else 0) := by
  unfold after_jobs
  simp only [fork_count, List.nil_append, List.countP_append]
  have h1 : ∀ L : List (Str × Nat),
      List.countP (fun e => match e with
        | Event.fork _ => true
        | _ => false) (L.map (fun jp => Event.fork (some jp.2))) = L.length := by
    intro L
    induction L with
    | nil => rfl
    | cons a L ih => simp [List.countP_cons, ih]
  have h2 : ∀ L : List Nat,
      List.countP (fun e => match e with
        | Event.fork _ => true
        | _ => false) (L.map Event.waitpid) = 0 := by
    intro L
    induction L with
    | nil => rfl
    | cons a L ih => simp [List.countP_cons, ih]
  rw [h1, h2]
  split
  · simp [List.countP_cons]
    omega
  · simp

/-! ## Claims on the job splitter -/

/-- C11: for every input line that, once one trailing newline is removed, is
empty or made only of spaces and tabs, `parse_and_execute` returns the state
it was given: no error, no output, no process, no dispatch, same registry. -/
theorem blank_line_ignored (env : Env) (line : Str) (s : Shell)
    (h : ∀ c ∈ strip_newline line, c = ' ' ∨ c = '\t') :
    parse_and_execute env line s = s ∧
    (parse_and_execute env line s).trace = s.trace ∧
    error_count (parse_and_execute env line s) = error_count s ∧
    fork_count (parse_and_execute env line s) = fork_count s ∧
    (parse_and_execute env line s).spawned = s.spawned ∧
    (parse_and_execute env line s).search_paths = s.search_paths := by
  have key : parse_and_execute env line s = s := by
    unfold parse_and_execute
    have : (strip_newline line).length = 0 ∨ only_spaces (strip_newline line) = true :=
      Or.inr ((only_spaces_iff _).mpr h)
    simp only [this, if_true]
  rw [key]
  exact ⟨rfl, rfl, rfl, rfl, rfl, rfl⟩

/-- Witness of C11: the line of blanks `"  \t\n"` and the empty line `"\n"`. -/
theorem blank_line_ignored_witness :
    (∀ c ∈ strip_newline [' ', ' ', '\t', '\n'], c = ' ' ∨ c = '\t') ∧
    parse_and_execute env0 [' ', ' ', '\t', '\n'] s0 = s0 ∧
    parse_and_execute env0 ['\n'] s0 = s0 :=
  ⟨by decide,
   (blank_line_ignored env0 [' ', ' ', '\t', '\n'] s0 (by decide)).1,
   (blank_line_ignored env0 ['\n'] s0 (by decide)).1⟩

/-! ## The tokenizer on strings of a known shape -/

theorem strtok_go_word (d a : Str) (h : ∀ c ∈ a, c ∉ d) :
    ∀ (rest cur : Str), strtok_go d (a ++ rest) cur = strtok_go d rest (cur ++ a) := by
  induction a with
  | nil => intro rest cur; simp
  | cons c cs ih =>
    intro rest cur
    have hc : ¬ (c ∈ d) := h c (List.mem_cons_self c cs)
    rw [List.cons_append, strtok_go]
    simp only [hc, if_false]
    rw [ih (fun x hx => h x (List.mem_cons_of_mem c hx))]
    simp

theorem strtok_go_delims (d w : Str) (h : ∀ c ∈ w, c ∈ d) (rest : Str) :
    strtok_go d (w ++ rest) [] = strtok_go d rest [] := by
  induction w with
  | nil => simp
  | cons c cs ih =>
    have hc : c ∈ d := h c (List.mem_cons_self c cs)
    rw [List.cons_append, strtok_go]
    simp only [hc, if_true]
    exact ih (fun x hx => h x (List.mem_cons_of_mem c hx))

theorem strtok_go_close (d w : Str) (h : ∀ c ∈ w, c ∈ d) (hw : w ≠ []) (rest cur : Str)
    (hcur : cur ≠ []) :
    strtok_go d (w ++ rest) cur = cur :: strtok_go d rest [] := by
  cases w with
  | nil => exact absurd rfl hw
  | cons c cs =>
    have hc : c ∈ d := h c (List.mem_cons_self c cs)
    rw [List.cons_append, strtok_go]
    simp only [hc, if_true, hcur, if_false]
    rw [strtok_go_delims d cs (fun x hx => h x (List.mem_cons_of_mem c hx))]

theorem strtok_go_end (d cur : Str) (hcur : cur ≠ []) : strtok_go d [] cur = [cur] := by
  rw [strtok_go]
  simp only [hcur, if_false]

theorem is_word_iff (a : Str) : is_word a = true ↔ a ≠ [] ∧ ∀ c ∈ a, c ∉ blanks := by
  cases a <;> simp [is_word]

theorem is_blank_run_iff (w : Str) : is_blank_run w = true ↔ ∀ c ∈ w, c ∈ blanks := by
  simp [is_blank_run]

/-- The tokens of a well spaced string are the words it was written from. -/
theorem strtok_go_spaced (items : List (Str × Str)) :
    well_spaced items = true →
      strtok_go blanks (items.map (fun p => p.1 ++ p.2)).flatten [] = items.map Prod.fst := by
  induction items with
  | nil => intro _; rfl
  | cons it rest ih =>
    obtain ⟨a, w⟩ := it
    cases rest with
    | nil =>
      intro h
      simp only [well_spaced, Bool.and_eq_true] at h
      obtain ⟨ha, hw⟩ := h
      obtain ⟨hane, haw⟩ := (is_word_iff a).mp ha
      have hwb := (is_blank_run_iff w).mp hw
      simp only [List.map_cons, List.map_nil, List.flatten_cons, List.flatten_nil,
        List.append_nil]
      rw [strtok_go_word blanks a haw w [], List.nil_append]
      by_cases hwe : w = []
      · subst hwe
        exact strtok_go_end blanks a hane
      · have := strtok_go_close blanks w hwb hwe [] a hane
        rw [List.append_nil] at this
        rw [this]
        rfl
    | cons it2 rest2 =>
      intro h
      simp only [well_spaced, Bool.and_eq_true, Bool.not_eq_true', List.isEmpty_eq_false] at h
      obtain ⟨⟨⟨ha, hw⟩, hwe⟩, hrest⟩ := h
      obtain ⟨hane, haw⟩ := (is_word_iff a).mp ha
      have hwb := (is_blank_run_iff w).mp hw
      have hwne : w ≠ [] := by
        intro h0
        rw [h0] at hwe
        simp at hwe
      rw [List.map_cons, List.flatten_cons, List.append_assoc,
        strtok_go_word blanks a haw _ [], List.nil_append,
        strtok_go_close blanks w hwb hwne _ a hane, ih hrest]
      rfl

theorem strtok_all_spaced (lead : Str) (items : List (Str × Str))
    (hlead : is_blank_run lead = true) (h : well_spaced items = true) :
    strtok_all blanks (spaced lead items) = items.map Prod.fst := by
  unfold strtok_all spaced
  rw [strtok_go_delims blanks lead ((is_blank_run_iff lead).mp hlead)]
  exact strtok_go_spaced items h

theorem strtok_all_blank (w : Str) (h : ∀ c ∈ w, c = ' ' ∨ c = '\t') :
    strtok_all blanks w = [] := by
  have hb : ∀ c ∈ w, c ∈ blanks := by
    intro c hc
    rcases h c hc with h1 | h1 <;> simp [blanks, h1]
  have := strtok_go_delims blanks w hb []
  rw [List.append_nil] at this
  unfold strtok_all
  rw [this]
  rfl

/-- Removing the trailing newline neither adds nor removes an `&`. -/
theorem amp_mem_strip (line : Str) : '&' ∈ strip_newline line ↔ '&' ∈ line := by
  unfold strip_newline
  split
  · next h =>
    have hl := List.dropLast_append_getLast? '\n' (by simpa using h.2)
    constructor
    · intro hm
      exact List.mem_of_mem_dropLast hm
    · intro hm
      rw [← hl] at hm
      rcases List.mem_append.mp hm with h1 | h1
      · exact h1
      · simp at h1
  · exact Iff.rfl

/-! ## Where a job runs -/

/-- A built-in never forks and never adds a process. -/
theorem execute_builtin_no_fork (env : Env) (args : List Str) (s : Shell) :
    fork_count (execute_builtin env args s) = fork_count s ∧
    (execute_builtin env args s).spawned = s.spawned := by
  unfold execute_builtin
  split
  · split
    · simp [fork_count, print_error, emit, List.countP_append]
    · simp [fork_count, sys_exit, free_paths]
  · split
    · split
      · simp [fork_count, print_error, emit, List.countP_append]
      · split <;> simp [fork_count, print_error, emit, List.countP_append]
    · split
      · split <;> simp [fork_count, free_paths]
      · exact ⟨rfl, rfl⟩

theorem parse_and_execute_no_amp (env : Env) (line : Str) (s : Shell)
    (h : '&' ∉ strip_newline line) :
    parse_and_execute env line s = parse_and_execute_single env (strip_newline line) s := by
  unfold parse_and_execute
  have hc : count_commands (strip_newline line) = 1 := by
    rw [count_commands_eq, List.count_eq_zero_of_not_mem h]
  by_cases hb : (strip_newline line).length = 0 ∨ only_spaces (strip_newline line) = true
  · simp only [hb, if_true]
    have htok : strtok_all blanks (strip_newline line) = [] := by
      rcases hb with h0 | h0
      · rw [List.length_eq_zero.mp h0]
        rfl
      · exact strtok_all_blank _ ((only_spaces_iff _).mp h0)
    unfold parse_and_execute_single parse_single
    rw [htok, parse_loop_nil]
    rfl
  · simp only [hb, hc, if_false, if_true]

theorem after_jobs_events (env : Env) (jobs : List Str) (s : Shell) :
    ∃ evs : List Event, (after_jobs env jobs [] s).trace = s.trace ++ evs ∧
      ∀ e ∈ evs, is_fork_wait_error e = true := by
  refine ⟨_, rfl, ?_⟩
  intro e he
  simp only [List.mem_append, List.mem_map, List.nil_append] at he
  rcases he with ⟨jp, _, rfl⟩ | he | ⟨p, _, rfl⟩
  · rfl
  · split at he
    · simp only [List.mem_cons, List.mem_singleton, List.not_mem_nil, or_false] at he
      rcases he with rfl | rfl <;> rfl
    · cases he
  · rfl

/-- C12: for every line containing an `&`, the jobs run in forked children:
each launched job `(job, pid)` is run by `job_child` on a copy of the registry
and working directory of the shell, and the shell itself only forks, reports
and waits, so after `parse_and_execute` its own registry, working directory
and status are those it had before the line, whatever the jobs are (`path`,
`cd`, `exit` included).  A line with no `&` is run by
`parse_and_execute_single` in the shell itself, and when its job is a
built-in that is `execute_builtin` on the shell's own state, with no fork and
no new process. -/
theorem parallel_jobs_isolated (env : Env) (line : Str) (s : Shell) :
    ('&' ∈ line →
      (parse_and_execute env line s).search_paths = s.search_paths ∧
      (parse_and_execute env line s).cwd = s.cwd ∧
      (parse_and_execute env line s).status = s.status ∧
      (∃ evs : List Event, (parse_and_execute env line s).trace = s.trace ++ evs ∧
        ∀ e ∈ evs, is_fork_wait_error e = true) ∧
      (parse_and_execute env line s).spawned = s.spawned ++
        ((launched env s.pid (fork_count s) (amp_pieces (strip_newline line))).map
          (job_procs env s)).flatten) ∧
    ('&' ∉ line →
      parse_and_execute env line s =
        parse_and_execute_single env (strip_newline line) s ∧
      ∀ (args : List Str) (rf : Option Str),
        parse_single (strip_newline line) = Parsed.command args rf →
        is_builtin args.head? = true →
        parse_and_execute env line s = execute_builtin env args s ∧
        fork_count (parse_and_execute env line s) = fork_count s ∧
        (parse_and_execute env line s).spawned = s.spawned) := by
  constructor
  · intro h
    rw [parse_and_execute_amp env line s ((amp_mem_strip line).mpr h), strtok_all_amp]
    exact ⟨rfl, rfl, rfl, after_jobs_events env _ s, rfl⟩
  · intro h
    have key := parse_and_execute_no_amp env line s (fun hm => h ((amp_mem_strip line).mp hm))
    refine ⟨key, ?_⟩
    intro args rf hp hb
    have hd : parse_and_execute env line s = execute_builtin env args s := by
      rw [key, parse_and_execute_single_command env _ s args rf hp]
      unfold dispatch
      simp only [hb, if_true]
    rw [hd]
    exact ⟨rfl, execute_builtin_no_fork env args s⟩

/-- Witness of C12: on the line `path /x&cd /&exit` the shell keeps its
registry `["/bin"]`, its directory and its running status, while the first
child ends with the registry `["/x"]`; the line `path /x` alone changes the
registry of the shell itself, without a fork. -/
theorem parallel_jobs_isolated_witness :
    ('&' ∈
        ['p', 'a', 't', 'h', ' ', '/', 'x', '&', 'c', 'd', ' ', '/', '&', 'e', 'x', 'i', 't'] ∧
      (parse_and_execute env0
        ['p', 'a', 't', 'h', ' ', '/', 'x', '&', 'c', 'd', ' ', '/', '&', 'e', 'x', 'i', 't']
        s0).search_paths = s0.search_paths ∧
      (parse_and_execute env0
        ['p', 'a', 't', 'h', ' ', '/', 'x', '&', 'c', 'd', ' ', '/', '&', 'e', 'x', 'i', 't']
        s0).status = s0.status ∧
      ((parse_and_execute env0
        ['p', 'a', 't', 'h', ' ', '/', 'x', '&', 'c', 'd', ' ', '/', '&', 'e', 'x', 'i', 't']
        s0).spawned.map Proc.search_paths) = [[['/', 'x']], [['/', 'b', 'i', 'n']], []]) ∧
    ('&' ∉ ['p', 'a', 't', 'h', ' ', '/', 'x'] ∧
      parse_and_execute env0 ['p', 'a', 't', 'h', ' ', '/', 'x'] s0 =
        execute_builtin env0 [kw_path, ['/', 'x']] s0 ∧
      (parse_and_execute env0 ['p', 'a', 't', 'h', ' ', '/', 'x'] s0).search_paths =
        [['/', 'x']]) :=
  ⟨⟨by decide,
    ((parallel_jobs_isolated env0
      ['p', 'a', 't', 'h', ' ', '/', 'x', '&', 'c', 'd', ' ', '/', '&', 'e', 'x', 'i', 't']
      s0).1 (by decide)).1,
    ((parallel_jobs_isolated env0
      ['p', 'a', 't', 'h', ' ', '/', 'x', '&', 'c', 'd', ' ', '/', '&', 'e', 'x', 'i', 't']
      s0).1 (by decide)).2.2.1,
    by decide⟩,
   ⟨by decide,
    (((parallel_jobs_isolated env0 ['p', 'a', 't', 'h', ' ', '/', 'x'] s0).2 (by decide)).2
      [kw_path, ['/', 'x']] none (by decide) (by decide)).1,
    by decide⟩⟩

/-! ## Launching and waiting -/

theorem countP_error_forks (ps : List Nat) :
    List.countP (fun e => decide (e = Event.print_error))
      (ps.map (fun p => Event.fork (some p))) = 0 := by
  induction ps with
  | nil => rfl
  | cons a ps ih => simp [List.countP_cons, ih]

theorem countP_error_waits (ps : List Nat) :
    List.countP (fun e => decide (e = Event.print_error)) (ps.map Event.waitpid) = 0 := by
  induction ps with
  | nil => rfl
  | cons a ps ih => simp [List.countP_cons, ih]

theorem countP_fork_forks (ps : List Nat) :
    List.countP (fun e => match e with
      | Event.fork _ => true
      | _ => false) (ps.map (fun p => Event.fork (some p))) = ps.length := by
  induction ps with
  | nil => rfl
  | cons a ps ih => simp [List.countP_cons, ih]

theorem countP_fork_waits (ps : List Nat) :
    List.countP (fun e => match e with
      | Event.fork _ => true
      | _ => false) (ps.map Event.waitpid) = 0 := by
  induction ps with
  | nil => rfl
  | cons a ps ih => simp [List.countP_cons, ih]

/-- The closed form when the forks return `ps` and then, if a job is left,
fail. -/
theorem after_jobs_of_pids (env : Env) (jobs : List Str) (s : Shell) (ps : List Nat)
    (hlen : ps.length ≤ jobs.length)
    (hok : ∀ i, i < ps.length → env.sys_fork s.pid (fork_count s + i) = some (ps.getD i 0))
    (hfail : ps.length < jobs.length → env.sys_fork s.pid (fork_count s + ps.length) = none) :
    (after_jobs env jobs [] s).trace = s.trace ++
        (ps.map (fun p => Event.fork (some p)) ++
          ((if ps.length < jobs.length then [Event.fork none, Event.print_error] else []) ++
            ps.map Event.waitpid)) ∧
    (after_jobs env jobs [] s).spawned = s.spawned ++
        ((List.zip jobs ps).map (job_procs env s)).flatten := by
  have hL := launched_eq_zip env s.pid jobs ps (fork_count s) hlen hok hfail
  have hsnd : (List.zip jobs ps).map Prod.snd = ps := List.map_snd_zip jobs ps hlen
  have hlz : (List.zip jobs ps).length = ps.length := by
    rw [List.length_zip]
    omega
  unfold after_jobs
  simp only [hL, hlz, List.nil_append]
  refine ⟨?_, trivial⟩
  have hmap : (List.zip jobs ps).map (fun jp => Event.fork (some jp.2)) =
      ps.map (fun p => Event.fork (some p)) := by
    rw [← hsnd, List.map_map]
    rw [hsnd]
    rfl
  rw [hmap, hsnd]

/-- C13 as amended: on a line with an `&` where the first `k - 1` forks
succeed (returning the pids `ps`) and the fork for the `k`-th job fails,
`parse_and_execute` reports the failure once and then waits on every one of
the `k - 1` launched children exactly once, in the order of launch; it calls
`fork` for no further job and launches nothing more, so no child is left
un-waited when it returns. -/
theorem fork_failure_reports_then_waits (env : Env) (line : Str) (s : Shell)
    (ps : List Nat) (hamp : '&' ∈ line)
    (hk : ps.length < (amp_pieces (strip_newline line)).length)
    (hok : ∀ i, i < ps.length → env.sys_fork s.pid (fork_count s + i) = some (ps.getD i 0))
    (hfail : env.sys_fork s.pid (fork_count s + ps.length) = none) :
    (parse_and_execute env line s).trace = s.trace ++
      (ps.map (fun p => Event.fork (some p)) ++
        ([Event.fork none, Event.print_error] ++ ps.map Event.waitpid)) ∧
    fork_count (parse_and_execute env line s) = fork_count s + ps.length + 1 ∧
    error_count (parse_and_execute env line s) = error_count s + 1 ∧
    (parse_and_execute env line s).spawned = s.spawned ++
      ((List.zip (amp_pieces (strip_newline line)) ps).map (job_procs env s)).flatten := by
  rw [parse_and_execute_amp env line s ((amp_mem_strip line).mpr hamp), strtok_all_amp]
  obtain ⟨ht, hs⟩ := after_jobs_of_pids env (amp_pieces (strip_newline line)) s ps
    (Nat.le_of_lt hk) hok (fun _ => hfail)
  simp only [hk, if_true] at ht
  refine ⟨ht, ?_, ?_, hs⟩
  · unfold fork_count
    rw [ht]
    simp only [List.countP_append, countP_fork_forks, countP_fork_waits]
    simp [List.countP_cons]
    omega
  · unfold error_count
    rw [ht]
    simp only [List.countP_append, countP_error_forks, countP_error_waits]
    simp [List.countP_cons]

/-- Witness of C13 as amended: the line `a&b` when the second fork fails. -/
theorem fork_failure_reports_then_waits_witness :
    ('&' ∈ ['a', '&', 'b'] ∧
      [100].length < (amp_pieces (strip_newline ['a', '&', 'b'])).length) ∧
    (parse_and_execute env2 ['a', '&', 'b'] s0).trace = s0.trace ++
      ([100].map (fun p => Event.fork (some p)) ++
        ([Event.fork none, Event.print_error] ++ [100].map Event.waitpid)) :=
  ⟨⟨by decide, by decide⟩,
   (fork_failure_reports_then_waits env2 ['a', '&', 'b'] s0 [100] (by decide) (by decide)
      (by decide) (by decide)).1⟩

/-- C13 as stated fails: on the line `a&b` with the second fork failing, the
error is reported before the launched child is waited on, not after. -/
theorem fork_failure_reported_before_wait :
    amp_pieces (strip_newline ['a', '&', 'b']) = [['a'], ['b']] ∧
    env2.sys_fork s0.pid (fork_count s0) = some 100 ∧
    env2.sys_fork s0.pid (fork_count s0 + 1) = none ∧
    (parse_and_execute env2 ['a', '&', 'b'] s0).trace =
      [Event.fork (some 100), Event.fork none, Event.print_error, Event.waitpid 100] ∧
    List.indexOf Event.print_error (parse_and_execute env2 ['a', '&', 'b'] s0).trace <
      List.indexOf (Event.waitpid 100) (parse_and_execute env2 ['a', '&', 'b'] s0).trace := by
  decide

theorem after_jobs_nil (env : Env) (s : Shell) : after_jobs env [] [] s = s := by
  cases s
  simp [after_jobs, launched]

/-- C17 as amended: for every line containing an `&`, the number of forks
attempted by `parse_and_execute` never exceeds the number of non-empty maximal
`&`-free substrings of the line (blank ones included, empty ones skipped) and
equals it when no fork fails; that number never exceeds 1 + the number of `&`
characters, which is `num_commands`, the size of the pid array, so the pids
recorded (one per launched job) fit in it; and a line made only of `&`
launches nothing, reports nothing and leaves the state as it was. -/
theorem fork_attempts_bounded (env : Env) (line : Str) (s : Shell)
    (hline : '&' ∈ line) :
    strtok_all amp (strip_newline line) = amp_pieces (strip_newline line) ∧
    fork_count (parse_and_execute env line s) ≤
      fork_count s + (amp_pieces (strip_newline line)).length ∧
    ((∀ i, i < (amp_pieces (strip_newline line)).length →
        env.sys_fork s.pid (fork_count s + i) ≠ none) →
      fork_count (parse_and_execute env line s) =
        fork_count s + (amp_pieces (strip_newline line)).length) ∧
    (amp_pieces (strip_newline line)).length ≤ 1 + (strip_newline line).count '&' ∧
    count_commands (strip_newline line) = 1 + (strip_newline line).count '&' ∧
    (launched env s.pid (fork_count s) (amp_pieces (strip_newline line))).length ≤
      count_commands (strip_newline line) ∧
    ((∀ c ∈ strip_newline line, c = '&') → parse_and_execute env line s = s) := by
  have hamp : '&' ∈ strip_newline line := (amp_mem_strip line).mpr hline
  have hpieces := strtok_all_amp (strip_newline line)
  have hbound : (amp_pieces (strip_newline line)).length ≤
      1 + (strip_newline line).count '&' := by
    rw [← hpieces]
    exact strtok_go_amp_length _ []
  have hL := launched_length_le env s.pid (amp_pieces (strip_newline line)) (fork_count s)
  have hfc := fork_count_after_jobs env (amp_pieces (strip_newline line)) s
  refine ⟨hpieces, ?_, ?_, hbound, count_commands_eq _, ?_, ?_⟩
  · rw [parse_and_execute_amp env line s hamp, hpieces, hfc]
    split <;> omega
  · intro hok
    have hall := launched_length_of_success env s.pid (amp_pieces (strip_newline line))
      (fork_count s) hok
    rw [parse_and_execute_amp env line s hamp, hpieces, hfc, hall]
    simp
  · rw [count_commands_eq]
    omega
  · intro hall
    have hnil : strtok_all amp (strip_newline line) = [] := by
      have hd : ∀ c ∈ strip_newline line, c ∈ amp := by
        intro c hc
        rw [hall c hc]
        decide
      have := strtok_go_delims amp (strip_newline line) hd []
      rw [List.append_nil] at this
      unfold strtok_all
      rw [this]
      rfl
    rw [parse_and_execute_amp env line s hamp, hnil]
    exact after_jobs_nil env s

/-- Witness of C17 as amended: the lines `a& &b` (three jobs, one of them a
blank) and `&&`. -/
theorem fork_attempts_bounded_witness :
    ('&' ∈ ['a', '&', ' ', '&', 'b'] ∧
      amp_pieces (strip_newline ['a', '&', ' ', '&', 'b']) = [['a'], [' '], ['b']] ∧
      fork_count (parse_and_execute env0 ['a', '&', ' ', '&', 'b'] s0) =
        fork_count s0 + (amp_pieces (strip_newline ['a', '&', ' ', '&', 'b'])).length) ∧
    ('&' ∈ ['&', '&'] ∧ parse_and_execute env0 ['&', '&'] s0 = s0) :=
  ⟨⟨by decide, by decide,
    (fork_attempts_bounded env0 ['a', '&', ' ', '&', 'b'] s0 (by decide)).2.2.1
      (by decide)⟩,
   ⟨by decide,
    (fork_attempts_bounded env0 ['&', '&'] s0 (by decide)).2.2.2.2.2.2 (by decide)⟩⟩

/-- C17 as stated fails: on the line `a&b`, which has two non-empty pieces,
only one fork is attempted when that fork fails. -/
theorem failed_fork_stops_launching :
    amp_pieces (strip_newline ['a', '&', 'b']) = [['a'], ['b']] ∧
    env1.sys_fork s0.pid (fork_count s0) = none ∧
    fork_count (parse_and_execute env1 ['a', '&', 'b'] s0) = 1 ∧
    fork_count (parse_and_execute env1 ['a', '&', 'b'] s0) ≠
      fork_count s0 + (amp_pieces (strip_newline ['a', '&', 'b'])).length ∧
    (parse_and_execute env1 ['a', '&', 'b'] s0).trace =
      [Event.fork none, Event.print_error] := by
  decide

/-! ## The external runner -/

/-- C15: for every external job whose command name resolves (to `exe`) and
whose fork succeeds (with pid `pid`), the shell forks once and waits, and the
child calls `execv` on the resolved path with the argument vector exactly as
parsed, argument 0 being the name as typed.  With a redirection target the
`execv` comes only after the target was opened write-only/create/truncate with
mode 0644 and the descriptor was duplicated onto standard output and standard
error; if that open fails there is no `execv`: the child reports the uniform
error once and exits with status 1. -/
theorem external_child_launch (env : Env) (s : Shell) (a0 : Str) (more : List Str)
    (rf : Option Str) (exe : Str) (pid : Nat)
    (hres : find_executable env s a0 = some exe)
    (hfork : env.sys_fork s.pid (fork_count s) = some pid) :
    (execute_external env (a0 :: more) rf s).trace =
      s.trace ++ [Event.fork (some pid), Event.wait] ∧
    (execute_external env (a0 :: more) rf s).spawned = s.spawned ++
      [external_child env exe (a0 :: more) rf
        { pid := pid, search_paths := s.search_paths, cwd := s.cwd, trace := [],
          status := Status.running }] ∧
    (∀ c : Proc, c.trace = [] →
      (external_child env exe (a0 :: more) none c).trace =
        Event.execv exe (a0 :: more) ::
          (if env.sys_execv exe (a0 :: more) = true then [] else [Event.print_error]) ∧
      (external_child env exe (a0 :: more) none c).status =
        (if env.sys_execv exe (a0 :: more) = true then Status.replaced
          else Status.exited 1)) ∧
    (∀ (c : Proc) (file : Str) (fd : Nat), c.trace = [] → env.sys_open file = some fd →
      (external_child env exe (a0 :: more) (some file) c).trace =
        [Event.sys_open file [OFlag.O_WRONLY, OFlag.O_CREAT, OFlag.O_TRUNC] 0o644 (some fd),
          Event.dup2 fd STDOUT_FILENO, Event.dup2 fd STDERR_FILENO, Event.close fd,
          Event.execv exe (a0 :: more)] ++
          (if env.sys_execv exe (a0 :: more) = true then [] else [Event.print_error]) ∧
      (external_child env exe (a0 :: more) (some file) c).status =
        (if env.sys_execv exe (a0 :: more) = true then Status.replaced
          else Status.exited 1)) ∧
    (∀ (c : Proc) (file : Str), c.trace = [] → env.sys_open file = none →
      (external_child env exe (a0 :: more) (some file) c).trace =
        [Event.sys_open file [OFlag.O_WRONLY, OFlag.O_CREAT, OFlag.O_TRUNC] 0o644 none,
          Event.print_error] ∧
      (external_child env exe (a0 :: more) (some file) c).status = Status.exited 1 ∧
      Status.exited 1 ≠ Status.exited 0) := by
  refine ⟨?_, ?_, ?_, ?_, ?_⟩
  · unfold execute_external
    simp only [List.head?_cons, hres, hfork]
    simp [emit]
  · unfold execute_external
    simp only [List.head?_cons, hres, hfork]
  · intro c hc
    unfold external_child
    by_cases hx : env.sys_execv exe (a0 :: more) = true
    · simp [hx, hc]
    · simp [hx, hc]
  · intro c file fd hc hopen
    unfold external_child
    by_cases hx : env.sys_execv exe (a0 :: more) = true
    · simp [hx, hc, hopen]
    · simp [hx, hc, hopen]
  · intro c file hc hopen
    unfold external_child
    simp [hc, hopen]

/-- Witness of C15: `ls -l` redirected to `o`, resolved to `/bin/ls`. -/
theorem external_child_launch_witness :
    (find_executable env0 s0 ['l', 's'] = some ['/', 'b', 'i', 'n', '/', 'l', 's'] ∧
      env0.sys_fork s0.pid (fork_count s0) = some 100) ∧
    (execute_external env0 (['l', 's'] :: [['-', 'l']]) (some ['o']) s0).trace =
      s0.trace ++ [Event.fork (some 100), Event.wait] ∧
    (execute_external env0 (['l', 's'] :: [['-', 'l']]) (some ['o']) s0).spawned.map
        Proc.trace =
      [[Event.sys_open ['o'] [OFlag.O_WRONLY, OFlag.O_CREAT, OFlag.O_TRUNC] 0o644 (some 3),
        Event.dup2 3 STDOUT_FILENO, Event.dup2 3 STDERR_FILENO, Event.close 3,
        Event.execv ['/', 'b', 'i', 'n', '/', 'l', 's'] [['l', 's'], ['-', 'l']]]] :=
  ⟨⟨by decide, by decide⟩,
   (external_child_launch env0 s0 ['l', 's'] [['-', 'l']] (some ['o'])
      ['/', 'b', 'i', 'n', '/', 'l', 's'] 100 (by decide) (by decide)).1,
   by decide⟩

/-! ## The argument vector the parser builds -/

theorem parse_finish_plain (args : List Str) (rf : Option Str) (hne : args ≠ []) :
    parse_finish args rf 0 = Parsed.command args rf ∧
    parse_finish args rf 1 = Parsed.command args rf := by
  have hl : ¬ args.length = 0 := fun h => hne (List.length_eq_zero.mp h)
  unfold parse_finish
  simp [hl]

/-- With 511 words stored the loop stops: whatever follows is not looked at. -/
theorem parse_loop_cap (pre rest : List Str) (hw : ∀ t ∈ pre, t ≠ gt)
    (hlen : pre.length = 511) :
    parse_loop (pre ++ rest) [] none 0 = Parsed.command pre none := by
  rw [parse_loop_words pre rest [] none 0 hw (by simp only [List.length_nil]; omega),
    List.nil_append]
  have hne : pre ≠ [] := by
    intro h
    rw [h] at hlen
    cases hlen
  cases rest with
  | nil =>
    rw [parse_loop_nil]
    exact (parse_finish_plain pre none hne).1
  | cons t rest =>
    rw [parse_loop_full t rest pre none 0 (by omega)]
    exact (parse_finish_plain pre none hne).1

/-- At most 510 words and nothing else: they are the argument vector. -/
theorem parse_loop_plain (toks : List Str) (hne : toks ≠ []) (hw : ∀ t ∈ toks, t ≠ gt)
    (hlen : toks.length ≤ 511) :
    parse_loop toks [] none 0 = Parsed.command toks none := by
  have := parse_loop_words toks [] [] none 0 hw (by simp only [List.length_nil]; omega)
  rw [List.append_nil, List.nil_append] at this
  rw [this, parse_loop_nil]
  exact (parse_finish_plain toks none hne).1

/-- At most 510 words, then `>` and one more token: the words are the
argument vector and the token is the target. -/
theorem parse_loop_redirect (pre : List Str) (f : Str) (hne : pre ≠ [])
    (hw : ∀ t ∈ pre, t ≠ gt) (hlen : pre.length ≤ 510) :
    parse_loop (pre ++ [gt, f]) [] none 0 = Parsed.command pre (some f) := by
  rw [parse_loop_words pre [gt, f] [] none 0 hw (by simp only [List.length_nil]; omega),
    List.nil_append, parse_loop_gt_last f pre none 0 (by omega)]
  exact (parse_finish_plain pre (some f) hne).2

/-- The loop never stores more than 511 arguments. -/
theorem parse_loop_bounded (toks args : List Str) (rf : Option Str) (rc : Nat) :
    args.length ≤ 511 →
    ∀ (args2 : List Str) (rf2 : Option Str),
      parse_loop toks args rf rc = Parsed.command args2 rf2 → args2.length ≤ 511 := by
  have hfin : ∀ (a : List Str) (r : Option Str) (c : Nat) (a2 : List Str) (r2 : Option Str),
      a.length ≤ 511 → parse_finish a r c = Parsed.command a2 r2 → a2.length ≤ 511 := by
    intro a r c a2 r2 ha h
    unfold parse_finish at h
    split at h
    · cases h
    · split at h
      · split at h <;> cases h
      · cases h
        exact ha
  induction toks, args, rf, rc using parse_loop.induct with
  | case1 args rf rc =>
    intro ha a2 r2 h
    rw [parse_loop_nil] at h
    exact hfin _ _ _ _ _ ha h
  | case2 args rf rc hroom =>
    intro _ a2 r2 h
    rw [parse_loop_gt_nil args rf rc hroom] at h
    cases h
  | case3 args rf rc hroom f _ =>
    intro ha a2 r2 h
    rw [parse_loop_gt_last f args rf rc hroom] at h
    exact hfin _ _ _ _ _ ha h
  | case4 args rf rc hroom f x rest hx =>
    intro _ a2 r2 h
    rw [parse_loop_gt_word f x rest args rf rc hroom hx] at h
    cases h
  | case5 args rf rc hroom f x rest hx _ =>
    intro _ a2 r2 h
    rw [parse_loop_gt_trailing f x rest args rf rc hroom] at h
    cases h
  | case6 t rest args rf rc hroom ht ih =>
    intro _ a2 r2 h
    rw [parse_loop_word t rest args rf rc hroom ht] at h
    exact ih (by simp only [List.length_append, List.length_singleton]; omega) a2 r2 h
  | case7 t rest args rf rc hroom =>
    intro ha a2 r2 h
    rw [parse_loop_full t rest args rf rc hroom] at h
    exact hfin _ _ _ _ _ ha h

/-- C16: for every job string written as `a1 ... an` or `a1 ... an > f`, the
tokens separated by non-empty runs of spaces/tabs, with any run of blanks in
front and behind, no `ai` being `>`, and `1 <= n <= 510`:
`parse_and_execute_single` reports no parse error and dispatches with the
argument vector exactly `[a1, ..., an]`, the redirection target being absent
in the first shape and `f` in the second. -/
theorem spaced_job_parsed (env : Env) (s : Shell) (lead : Str)
    (items : List (Str × Str)) (as : List Str) (f : Str)
    (hlead : is_blank_run lead = true) (hsp : well_spaced items = true)
    (hne : as ≠ []) (hlen : as.length ≤ 510) (hw : ∀ a ∈ as, a ≠ gt) :
    (items.map Prod.fst = as →
      strtok_all blanks (spaced lead items) = as ∧
      parse_single (spaced lead items) = Parsed.command as none ∧
      parse_and_execute_single env (spaced lead items) s = dispatch env as none s) ∧
    (items.map Prod.fst = as ++ [gt, f] →
      strtok_all blanks (spaced lead items) = as ++ [gt, f] ∧
      parse_single (spaced lead items) = Parsed.command as (some f) ∧
      parse_and_execute_single env (spaced lead items) s = dispatch env as (some f) s) := by
  have htok := strtok_all_spaced lead items hlead hsp
  constructor
  · intro h
    rw [h] at htok
    have hp : parse_single (spaced lead items) = Parsed.command as none := by
      unfold parse_single
      rw [htok]
      exact parse_loop_plain as hne hw (by omega)
    exact ⟨htok, hp, parse_and_execute_single_command env _ s _ _ hp⟩
  · intro h
    rw [h] at htok
    have hp : parse_single (spaced lead items) = Parsed.command as (some f) := by
      unfold parse_single
      rw [htok]
      exact parse_loop_redirect as f hne hw hlen
    exact ⟨htok, hp, parse_and_execute_single_command env _ s _ _ hp⟩

/-- Witness of C16: the strings `" ls  -l\t"` and `"ls -l >  out "`. -/
theorem spaced_job_parsed_witness :
    (spaced [' '] [(['l', 's'], [' ', ' ']), (['-', 'l'], ['\t'])] =
        [' ', 'l', 's', ' ', ' ', '-', 'l', '\t'] ∧
      parse_single (spaced [' '] [(['l', 's'], [' ', ' ']), (['-', 'l'], ['\t'])]) =
        Parsed.command [['l', 's'], ['-', 'l']] none) ∧
    (spaced [] [(['l', 's'], [' ']), (['-', 'l'], [' ']), (gt, [' ', ' ']),
        (['o', 'u', 't'], [' '])] =
        ['l', 's', ' ', '-', 'l', ' ', '>', ' ', ' ', 'o', 'u', 't', ' '] ∧
      parse_single (spaced [] [(['l', 's'], [' ']), (['-', 'l'], [' ']), (gt, [' ', ' ']),
        (['o', 'u', 't'], [' '])]) =
        Parsed.command [['l', 's'], ['-', 'l']] (some ['o', 'u', 't'])) :=
  ⟨⟨by decide,
    ((spaced_job_parsed env0 s0 [' '] [(['l', 's'], [' ', ' ']), (['-', 'l'], ['\t'])]
      [['l', 's'], ['-', 'l']] [] (by decide) (by decide) (by decide) (by decide)
      (by decide)).1 (by decide)).2.1⟩,
   ⟨by decide,
    ((spaced_job_parsed env0 s0 [] [(['l', 's'], [' ']), (['-', 'l'], [' ']),
        (gt, [' ', ' ']), (['o', 'u', 't'], [' '])]
      [['l', 's'], ['-', 'l']] ['o', 'u', 't'] (by decide) (by decide) (by decide)
      (by decide) (by decide)).2 (by decide)).2.1⟩⟩

/-- C18: for every job string the argument vector that reaches the dispatch
has at most 511 entries, so with the terminating null it fits the 512 slots
of `args`; and when the first 511 tokens are ordinary words every later token,
a `>` and its target included, is dropped: the parser reports no error and the
command is dispatched with exactly the first 511 tokens and no redirection
target. -/
theorem argument_count_bounded (env : Env) (s : Shell) (cmd : Str) :
    (∀ (args : List Str) (rf : Option Str), parse_single cmd = Parsed.command args rf →
      args.length ≤ 511 ∧ args.length + 1 ≤ 512) ∧
    (∀ pre rest : List Str, strtok_all blanks cmd = pre ++ rest → pre.length = 511 →
      (∀ t ∈ pre, t ≠ gt) →
      parse_single cmd = Parsed.command pre none ∧
      parse_and_execute_single env cmd s = dispatch env pre none s) := by
  constructor
  · intro args rf h
    have := parse_loop_bounded (strtok_all blanks cmd) [] none 0 (by decide) args rf h
    omega
  · intro pre rest htok hlen hw
    have hp : parse_single cmd = Parsed.command pre none := by
      unfold parse_single
      rw [htok]
      exact parse_loop_cap pre rest hw hlen
    exact ⟨hp, parse_and_execute_single_command env cmd s _ _ hp⟩

/-- Witness of C18: the job `ls > out` has one argument; and the job made of
511 times `a` followed by `> o` is dispatched with the 511 words and no
target. -/
theorem argument_count_bounded_witness :
    (parse_single ['l', 's', ' ', '>', ' ', 'o', 'u', 't'] =
        Parsed.command [['l', 's']] (some ['o', 'u', 't']) ∧
      [['l', 's']].length ≤ 511) ∧
    (strtok_all blanks ((List.replicate 511 ['a', ' ']).flatten ++ ['>', ' ', 'o']) =
        List.replicate 511 ['a'] ++ [gt, ['o']] ∧
      parse_single ((List.replicate 511 ['a', ' ']).flatten ++ ['>', ' ', 'o']) =
        Parsed.command (List.replicate 511 ['a']) none) :=
  ⟨⟨by decide,
    ((argument_count_bounded env0 s0 ['l', 's', ' ', '>', ' ', 'o', 'u', 't']).1
      [['l', 's']] (some ['o', 'u', 't']) (by decide)).1⟩,
   ⟨by decide!,
    ((argument_count_bounded env0 s0
        ((List.replicate 511 ['a', ' ']).flatten ++ ['>', ' ', 'o'])).2
      (List.replicate 511 ['a']) [gt, ['o']] (by decide!)
      (List.length_replicate 511 ['a'])
      (fun t ht => by rw [List.eq_of_mem_replicate ht]; decide)).1⟩⟩

/-! ## Built-ins and redirection -/

/-- A built-in only ever reports the error or calls `chdir`. -/
theorem execute_builtin_events (env : Env) (args : List Str) (s : Shell) :
    ∃ evs : List Event, (execute_builtin env args s).trace = s.trace ++ evs ∧
      ∀ e ∈ evs, e = Event.print_error ∨ ∃ d, e = Event.chdir d := by
  unfold execute_builtin
  split
  · split
    · exact ⟨[Event.print_error], rfl, by simp⟩
    · exact ⟨[], by simp [sys_exit, free_paths], by simp⟩
  · split
    · split
      · exact ⟨[Event.print_error], rfl, by simp⟩
      · split
        · exact ⟨[Event.chdir (args.getD 1 [])], rfl, by simp⟩
        · exact ⟨[Event.chdir (args.getD 1 []), Event.print_error],
            by simp [print_error, emit], by simp⟩
    · split
      · split
        · exact ⟨[], by simp [free_paths], by simp⟩
        · exact ⟨[], by simp [free_paths], by simp⟩
      · exact ⟨[], by simp, by simp⟩

/-- C19: for every job `b a1 ... an > f` whose argument 0 `b` is `exit`, `cd`
or `path` (no `ai` being `>`), `parse_and_execute_single` ends in the same
state as for the job `b a1 ... an`: both are `execute_builtin` on the same
argument vector, in which `f` does not appear (it is `[b, a1, ..., an]` when
that has at most 511 entries); no `open` is made for `f` and no process is
created, so registry, status and error reports are identical. -/
theorem builtin_ignores_redirection (env : Env) (s : Shell) (cmd1 cmd2 : Str)
    (b : Str) (as : List Str) (f : Str)
    (hb : b = kw_exit ∨ b = kw_cd ∨ b = kw_path)
    (h1 : strtok_all blanks cmd1 = (b :: as) ++ [gt, f])
    (h2 : strtok_all blanks cmd2 = b :: as)
    (hw : ∀ t ∈ as, t ≠ gt) :
    parse_and_execute_single env cmd1 s = parse_and_execute_single env cmd2 s ∧
    parse_and_execute_single env cmd1 s = execute_builtin env ((b :: as).take 511) s ∧
    ((b :: as).length ≤ 511 →
      parse_and_execute_single env cmd1 s = execute_builtin env (b :: as) s) ∧
    (∀ (file : Str) (flags : List OFlag) (mode : Nat) (fd : Option Nat),
      Event.sys_open file flags mode fd ∈ (parse_and_execute_single env cmd1 s).trace →
      Event.sys_open file flags mode fd ∈ s.trace) ∧
    (parse_and_execute_single env cmd1 s).spawned = s.spawned ∧
    fork_count (parse_and_execute_single env cmd1 s) = fork_count s := by
  have hbgt : b ≠ gt := by
    rcases hb with h | h | h <;> rw [h] <;> decide
  have hwall : ∀ t ∈ b :: as, t ≠ gt := by
    intro t ht
    rcases List.mem_cons.mp ht with h | h
    · rw [h]
      exact hbgt
    · exact hw t h
  have hbuiltin : ∀ rest : List Str, is_builtin ((b :: rest).head?) = true := by
    intro rest
    rw [List.head?_cons]
    exact (is_builtin_iff b).mpr hb
  have hdisp : ∀ (rf : Option Str),
      dispatch env ((b :: as).take 511) rf s = execute_builtin env ((b :: as).take 511) s := by
    intro rf
    unfold dispatch
    have : ((b :: as).take 511) = b :: as.take 510 := rfl
    rw [this, hbuiltin]
    rfl
  have key2 : parse_and_execute_single env cmd2 s =
      execute_builtin env ((b :: as).take 511) s := by
    have hp : parse_single cmd2 = Parsed.command ((b :: as).take 511) none := by
      unfold parse_single
      rw [h2]
      by_cases hl : (b :: as).length ≤ 511
      · rw [List.take_of_length_le hl]
        exact parse_loop_plain (b :: as) (by simp) hwall hl
      · have hsplit := (List.take_append_drop 511 (b :: as)).symm
        rw [hsplit]
        rw [List.take_append_drop]
        have := parse_loop_cap ((b :: as).take 511) ((b :: as).drop 511)
          (fun t ht => hwall t (List.mem_of_mem_take ht))
          (by rw [List.length_take]; omega)
        rw [List.take_append_drop] at this
        exact this
    rw [parse_and_execute_single_command env cmd2 s _ _ hp]
    exact hdisp none
  have key1 : parse_and_execute_single env cmd1 s =
      execute_builtin env ((b :: as).take 511) s := by
    by_cases hl : (b :: as).length ≤ 510
    · have hp : parse_single cmd1 = Parsed.command (b :: as) (some f) := by
        unfold parse_single
        rw [h1]
        exact parse_loop_redirect (b :: as) f (by simp) hwall hl
      rw [parse_and_execute_single_command env cmd1 s _ _ hp]
      have ht : (b :: as).take 511 = b :: as := List.take_of_length_le (by omega)
      have hd := hdisp (some f)
      rw [ht] at hd
      rw [ht]
      exact hd
    · have hp : parse_single cmd1 = Parsed.command ((b :: as).take 511) none := by
        unfold parse_single
        rw [h1]
        have := parse_loop_cap ((b :: as).take 511) ((b :: as).drop 511 ++ [gt, f])
          (fun t ht => hwall t (List.mem_of_mem_take ht))
          (by rw [List.length_take]; omega)
        rw [← List.append_assoc, List.take_append_drop] at this
        exact this
      rw [parse_and_execute_single_command env cmd1 s _ _ hp]
      exact hdisp none
  refine ⟨by rw [key1, key2], key1, ?_, ?_, ?_, ?_⟩
  · intro hl
    rw [key1, List.take_of_length_le hl]
  · intro file flags mode fd hmem
    rw [key1] at hmem
    obtain ⟨evs, htr, hev⟩ := execute_builtin_events env ((b :: as).take 511) s
    rw [htr] at hmem
    rcases List.mem_append.mp hmem with h | h
    · exact h
    · rcases hev _ h with h0 | ⟨d, h0⟩ <;> cases h0
  · rw [key1]
    exact (execute_builtin_no_fork env _ s).2
  · rw [key1]
    exact (execute_builtin_no_fork env _ s).1

/-- Witness of C19: `cd /tmp > o` behaves as `cd /tmp`, and `path /x > o` sets
the registry to `["/x"]` only. -/
theorem builtin_ignores_redirection_witness :
    (strtok_all blanks ['c', 'd', ' ', '/', 't', 'm', 'p', ' ', '>', ' ', 'o'] =
        (kw_cd :: [['/', 't', 'm', 'p']]) ++ [gt, ['o']] ∧
      parse_and_execute_single env0 ['c', 'd', ' ', '/', 't', 'm', 'p', ' ', '>', ' ', 'o'] s0 =
        parse_and_execute_single env0 ['c', 'd', ' ', '/', 't', 'm', 'p'] s0) ∧
    (parse_and_execute_single env0 ['p', 'a', 't', 'h', ' ', '/', 'x', ' ', '>', ' ', 'o']
        s0).search_paths = [['/', 'x']] :=
  ⟨⟨by decide,
    (builtin_ignores_redirection env0 s0
      ['c', 'd', ' ', '/', 't', 'm', 'p', ' ', '>', ' ', 'o']
      ['c', 'd', ' ', '/', 't', 'm', 'p'] kw_cd [['/', 't', 'm', 'p']] ['o']
      (by decide) (by decide) (by decide) (by decide)).1⟩,
   by decide⟩

end Wish
